import Mathlib

/-!
Verification development for the xgl internal GPU memory sub-allocation manager
(`src/icd/api/include/internal_mem_mgr.h`) and the Vulkan settings loader
(`settings.cpp`).

The repository ships only the header of the memory manager: the classes,
fields and operation signatures are declared there, while the bodies of
`InternalMemMgr::AllocGpuMem`, `InternalMemMgr::FreeGpuMem`,
`InternalMemMgr::AllocBaseGpuMem` and `Util::BuddyAllocator` live outside the
provided sources.  Those operations are therefore modelled from the
specification (sections 4.1-4.4, 6 and 7), faithfully to its words, and the
properties are settled against that model.  The settings loader
(`VulkanSettingsLoader`) is embedded directly from its source.
-/

namespace Xgl

/-! ## Buddy allocator (spec section 4.1)

Free block bookkeeping: `FreeLists` is the per-order free-list table, index
`k` holding the offsets of the free blocks of size `2 ^ k` (in units of the
minimum block granularity).  A state managed with maximum order `n` has
`n + 1` lists. -/

/-- Per-order free lists of a buddy allocator state. -/
abbrev FreeLists := List (List Nat)

/-- Free list of order `k` (empty when out of range). -/
def listAt (s : FreeLists) (k : Nat) : List Nat := s.getD k []

/-- Replace the free list of order `k`. -/
def setAt (s : FreeLists) (k : Nat) (l : List Nat) : FreeLists := s.set k l

/-- Insert an offset into a free list kept in increasing order. -/
def insertSorted (x : Nat) : List Nat → List Nat
  | [] => [x]
  | y :: ys => if x ≤ y then x :: y :: ys else y :: insertSorted x ys

/-- Modelled from the spec: address of the buddy of the block at offset `o`
of order `k` (the sibling half of its parent block).  For an offset aligned
to `2 ^ k` this is `o + 2 ^ k` when `o` is the lower half and `o - 2 ^ k`
when it is the upper half. -/
def buddyOf (o k : Nat) : Nat := if o % 2 ^ (k + 1) = 0 then o + 2 ^ k else o - 2 ^ k

/-- Modelled from the spec: `Util::BuddyAllocator` block allocation, whose
implementation is not under `src/`.  Allocates one block of order `k` from a
state of maximum order `n`: take the first free block of order `k` if one
exists, otherwise recursively split the smallest available larger block,
inserting the unused upper half into the order-`k` free list. -/
def allocBlock (n k : Nat) (s : FreeLists) : Option (Nat × FreeLists) :=
  match listAt s k with
  | o :: rest => some (o, setAt s k rest)
  | [] =>
    if _h : k < n then
      match allocBlock n (k + 1) s with
      | none => none
      | some (o, s') => some (o, setAt s' k (insertSorted (o + 2 ^ k) (listAt s' k)))
    else none
termination_by n - k

/-- Modelled from the spec: `Util::BuddyAllocator` block release, whose
implementation is not under `src/`.  Returns the block at offset `o` of
order `k`: if its buddy is also free the two are merged and the parent block
is released recursively, otherwise the block is put on the order-`k` free
list. -/
def freeBlock (n o k : Nat) (s : FreeLists) : FreeLists :=
  if h : k < n ∧ buddyOf o k ∈ listAt s k then
    freeBlock n (min o (buddyOf o k)) (k + 1) (setAt s k ((listAt s k).erase (buddyOf o k)))
  else
    setAt s k (insertSorted o (listAt s k))
termination_by n - k

/-- Smallest `k` with `m ≤ 2 ^ k`. -/
def orderOf (m : Nat) : Nat :=
  if m ≤ 1 then 0 else orderOf ((m + 1) / 2) + 1
decreasing_by omega

/-- Modelled from the spec: an allocation request is rounded up to the
smallest power-of-two block size that is at least `max size align`. -/
def orderFor (size align : Nat) : Nat := orderOf (max size align)

/-- Modelled from the spec: `Allocate(size, alignment)` of the buddy
allocator. -/
def buddyAllocate (n size align : Nat) (s : FreeLists) : Option (Nat × FreeLists) :=
  allocBlock n (orderFor size align) s

/-- Modelled from the spec: `Free(offset, size)` of the buddy allocator; the
block order is recomputed from the size and alignment recorded in the
sub-allocation handle, matching the order used at allocation time. -/
def buddyFree (n o size align : Nat) (s : FreeLists) : FreeLists :=
  freeBlock n o (orderFor size align) s

/-- Initial buddy state of maximum order `n`: one free block of order `n` at
offset `0`, all other free lists empty. -/
def initBuddy (n : Nat) : FreeLists :=
  (List.range (n + 1)).map (fun k => if k = n then [0] else [])

/-! ### Structural well-formedness of a buddy state -/

/-- Every free list is strictly increasing (hence duplicate-free). -/
def SortedLists (s : FreeLists) : Prop :=
  ∀ k < s.length, (listAt s k).Pairwise (· < ·)

/-- Every free block of order `k` starts at a multiple of `2 ^ k`. -/
def AlignedLists (s : FreeLists) : Prop :=
  ∀ k < s.length, ∀ o ∈ listAt s k, o % 2 ^ k = 0

/-- No block below the maximum order coexists on a free list with its buddy
(the allocator would have merged them). -/
def MergedLists (n : Nat) (s : FreeLists) : Prop :=
  ∀ k < n, ∀ o ∈ listAt s k, buddyOf o k ∉ listAt s k

/-- The blocks `[o1, o1 + 2^k1)` and `[o2, o2 + 2^k2)` occupy disjoint
ranges. -/
def BlocksDisjoint (o1 k1 o2 k2 : Nat) : Prop :=
  o1 + 2 ^ k1 ≤ o2 ∨ o2 + 2 ^ k2 ≤ o1

/-- Any two distinct entries of the free-list table describe disjoint
blocks. -/
def FreeDisj (s : FreeLists) : Prop :=
  ∀ k1 < s.length, ∀ k2 < s.length, ∀ o1 ∈ listAt s k1, ∀ o2 ∈ listAt s k2,
    (k1 ≠ k2 ∨ o1 ≠ o2) → BlocksDisjoint o1 k1 o2 k2

/-- Well-formedness of a buddy state of maximum order `n`, as established by
initialization and maintained by the allocator. -/
def BuddyWF (n : Nat) (s : FreeLists) : Prop :=
  s.length = n + 1 ∧ SortedLists s ∧ AlignedLists s ∧ MergedLists n s

instance (s : FreeLists) : Decidable (SortedLists s) := by
  unfold SortedLists; infer_instance

instance (s : FreeLists) : Decidable (AlignedLists s) := by
  unfold AlignedLists; infer_instance

instance (n : Nat) (s : FreeLists) : Decidable (MergedLists n s) := by
  unfold MergedLists; infer_instance

instance (n : Nat) (s : FreeLists) : Decidable (BuddyWF n s) := by
  unfold BuddyWF; infer_instance

/-! ## Per-base-allocation allocate/free traces

`MemOp` is one public call routed to a given Base Allocation whose
`noSuballocation` flag is unset: an `AllocGpuMem` that sub-allocates from it,
or a `FreeGpuMem` of one of its live handles.  `SubState` tracks the buddy
allocator together with the live sub-allocation handles
`(offset, size, alignment)`. -/

/-- One allocate or free call against a single Base Allocation. -/
inductive MemOp where
  | alloc (size align : Nat)
  | free (offset size align : Nat)
deriving DecidableEq, Repr

/-- Buddy state plus live handle set of one Base Allocation. -/
structure SubState where
  buddy : FreeLists
  live : List (Nat × Nat × Nat)
deriving DecidableEq, Repr

/-- Modelled from the spec: effect of one `AllocGpuMem`/`FreeGpuMem` call on
one Base Allocation (the manager bodies are not under `src/`).  An allocate
draws a range from the buddy allocator and records the live handle; a free
of a live handle returns its range and drops it.  Freeing a non-live handle
is undefined behaviour for the caller; the model leaves the state
unchanged. -/
def stepOp (n : Nat) (s : SubState) : MemOp → SubState × Option Nat
  | .alloc size align =>
    match buddyAllocate n size align s.buddy with
    | none => (s, none)
    | some (o, b') => (⟨b', (o, size, align) :: s.live⟩, some o)
  | .free o size align =>
    if (o, size, align) ∈ s.live then
      (⟨buddyFree n o size align s.buddy, s.live.erase (o, size, align)⟩, none)
    else (s, none)

/-- Run a call sequence, returning the final state and the placement granted
by each call (`none` for a failed allocate or for a free). -/
def runOps (n : Nat) (s : SubState) : List MemOp → SubState × List (Option Nat)
  | [] => (s, [])
  | op :: rest =>
    let sr := stepOp n s op
    let rec' := runOps n sr.1 rest
    (rec'.1, sr.2 :: rec'.2)

/-- A Base Allocation starts with its whole extent free and no live
handles. -/
def initialSub (n : Nat) : SubState := ⟨initBuddy n, []⟩

/-- Run a sequence of allocate calls only, returning each call's result. -/
def runAllocs (n : Nat) : List (Nat × Nat) → FreeLists → List (Option Nat)
  | [], _ => []
  | (size, align) :: rest, s =>
    match buddyAllocate n size align s with
    | none => none :: runAllocs n rest s
    | some (o, s') => some o :: runAllocs n rest s'

/-! ### Range overlap and invariant predicates for live handles -/

/-- Point `x` lies in the block of order `k` at offset `o`. -/
def InBlock (o k x : Nat) : Prop := o ≤ x ∧ x < o + 2 ^ k

/-- Point `x` is covered by some free block of the buddy state. -/
def FreePt (s : FreeLists) (x : Nat) : Prop :=
  ∃ k, k < s.length ∧ ∃ o, o ∈ listAt s k ∧ InBlock o k x

/-- The byte ranges `[o1, o1+s1)` and `[o2, o2+s2)` intersect. -/
def RangesOverlap (o1 s1 o2 s2 : Nat) : Prop :=
  max o1 o2 < min (o1 + s1) (o2 + s2)

/-- Invariant on the live handle list: every handle's block is aligned,
covers no free point, and the blocks of distinct live handles are pairwise
disjoint. -/
def LiveInv (st : SubState) : Prop :=
  (∀ h ∈ st.live, h.1 % 2 ^ orderFor h.2.1 h.2.2 = 0) ∧
  (∀ h ∈ st.live, ∀ x, InBlock h.1 (orderFor h.2.1 h.2.2) x → ¬ FreePt st.buddy x) ∧
  st.live.Pairwise (fun h1 h2 =>
    BlocksDisjoint h1.1 (orderFor h1.2.1 h1.2.2) h2.1 (orderFor h2.2.1 h2.2.2))

/-- Full invariant of a Base Allocation's state. -/
def SubInv (n : Nat) (st : SubState) : Prop :=
  st.buddy.length = n + 1 ∧ SortedLists st.buddy ∧ AlignedLists st.buddy ∧
  FreeDisj st.buddy ∧ LiveInv st

/-! ## Manager model (spec sections 4.2-4.4, 6, 7)

The bodies of `InternalMemMgr::AllocGpuMem`, `AllocBaseGpuMem` and
`FreeGpuMem` are not under `src/`; they are modelled from the spec.  The
heap backend (spec section 6) exposes per-device, per-heap capacities; a
reservation subtracts from the chosen capacity and a release adds back. -/

/-- Static configuration of the manager. -/
structure MgrConfig where
  numDevices : Nat
  heapCount : Nat
  minPoolOrder : Nat
deriving DecidableEq, Repr

/-- Heap backend state: outer index device, inner index heap kind, value the
remaining capacity. -/
abbrev Backend := List (List Nat)

/-- Remaining capacity of heap `h` on device `d`. -/
def availAt (b : Backend) (d h : Nat) : Nat := (b.getD d []).getD h 0

/-- Set the remaining capacity of heap `h` on device `d`. -/
def setAvail (b : Backend) (d h v : Nat) : Backend :=
  b.set d ((b.getD d []).set h v)

/-- Modelled from the spec: the heap backend's `CreateHeapAllocation` for one
device, which fails when the heap lacks capacity. -/
def reserveDev (b : Backend) (d h sz : Nat) : Option Backend :=
  if sz ≤ availAt b d h then some (setAvail b d h (availAt b d h - sz)) else none

/-- Modelled from the spec: the heap backend's `DestroyHeapAllocation` for
one device, returning the reserved capacity. -/
def releaseDev (b : Backend) (d h sz : Nat) : Backend :=
  setAvail b d h (availAt b d h + sz)

/-- Release one per-device reservation for each listed device. -/
def releaseAll (h sz : Nat) (devs : List Nat) (b : Backend) : Backend :=
  devs.foldr (fun d acc => releaseDev acc d h sz) b

/-- Errors surfaced by the manager (spec section 7). -/
inductive AllocErr where
  | outOfDeviceMemory | outOfHostMemory | invalidPoolSignature | bindFailure
deriving DecidableEq, Repr

/-- Modelled from the spec: the per-device reservation loop of
`InternalMemMgr::AllocBaseGpuMem`.  `done` lists the devices already
reserved in this attempt; when a reservation fails, those reservations are
released before the error is reported. -/
def allocBaseLoop (hp sz : Nat) : List Nat → List Nat → Backend →
    Except (AllocErr × Backend) Backend
  | [], _, b => .ok b
  | d :: rest, done, b =>
    match reserveDev b d hp sz with
    | some b' => allocBaseLoop hp sz rest (done ++ [d]) b'
    | none => .error (.outOfDeviceMemory, releaseAll hp sz done b)

namespace InternalMemMgr

/-- Modelled from the spec: `InternalMemMgr::AllocBaseGpuMem` (body not
under `src/`).  Requests one reservation of `sz` from heap `hp` for every
device of the group; on any per-device failure the already-made
reservations are released and `OutOfDeviceMemory` is reported together with
the resulting backend state. -/
def AllocBaseGpuMem (cfg : MgrConfig) (hp sz : Nat) (b : Backend) :
    Except (AllocErr × Backend) Backend :=
  allocBaseLoop hp sz (List.range cfg.numDevices) [] b

end InternalMemMgr

/-- Modelled from the spec: heap-preference policy of the Pool Registry --
try each heap of the preference list in order and accept the first whose
per-device reservations all succeed. -/
def tryHeaps (cfg : MgrConfig) (sz : Nat) : List Nat → Backend →
    Except Backend (Nat × Backend)
  | [], b => .error b
  | hp :: rest, b =>
    match InternalMemMgr.AllocBaseGpuMem cfg hp sz b with
    | .ok b' => .ok (hp, b')
    | .error (_, b') => tryHeaps cfg sz rest b'

/-- Creation flags of an internal memory allocation (source
`InternalMemCreateFlags`, the named bits of the union). -/
structure InternalMemCreateFlags where
  readOnly : Bool
  persistentMapped : Bool
  noSuballocation : Bool
deriving DecidableEq, Repr

/-- Pool signature (source `MemoryPoolProperties`): flags, virtual-address
range class and the ordered heap preference list. -/
structure MemoryPoolProperties where
  flags : InternalMemCreateFlags
  vaRange : Nat
  heaps : List Nat
deriving DecidableEq, Repr

/-- Allocation request (source `InternalMemCreateInfo`): the PAL create info
is reduced to the size, alignment, VA range and heap list the model needs;
`pPoolInfo` is the optional precomputed pool information. -/
structure InternalMemCreateInfo where
  size : Nat
  alignment : Nat
  vaRange : Nat
  heaps : List Nat
  flags : InternalMemCreateFlags
  pPoolInfo : Option MemoryPoolProperties
deriving DecidableEq, Repr

/-- Modelled from the spec: the pool signature computed from a request
(`InternalMemMgr::CalcSubAllocationPool`, body not under `src/`). -/
def calcPoolProperties (info : InternalMemCreateInfo) : MemoryPoolProperties :=
  ⟨info.flags, info.vaRange, info.heaps⟩

/-- One Base Allocation of the registry (source `InternalMemoryPool`
together with its creation bookkeeping): chosen heap, buddy order, reserved
size per device, buddy allocator state, and whether sub-allocation is
disallowed. -/
structure BaseAlloc where
  heap : Nat
  order : Nat
  size : Nat
  buddy : FreeLists
  noSub : Bool
deriving DecidableEq, Repr

/-- Registry plus backend state of the manager. -/
structure MgrState where
  backend : Backend
  pools : List (MemoryPoolProperties × List BaseAlloc)
deriving DecidableEq, Repr

/-- Base Allocation list registered under a signature (empty when the
signature has no entry yet). -/
def lookupPool (props : MemoryPoolProperties)
    (ps : List (MemoryPoolProperties × List BaseAlloc)) : List BaseAlloc :=
  match ps.find? (fun e => decide (e.1 = props)) with
  | some e => e.2
  | none => []

/-- Store a Base Allocation list under a signature, appending a fresh entry
when the signature is new. -/
def setPool (props : MemoryPoolProperties) (l : List BaseAlloc)
    (ps : List (MemoryPoolProperties × List BaseAlloc)) :
    List (MemoryPoolProperties × List BaseAlloc) :=
  if ps.any (fun e => decide (e.1 = props)) then
    ps.map (fun e => if e.1 = props then (props, l) else e)
  else ps ++ [(props, l)]

/-- Sub-allocation handle returned by the manager (the granted view of
source `InternalMemory`): owning signature, index of the Base Allocation in
its list, offset, size, alignment, and the dedicated-allocation marker. -/
structure SubAllocHandle where
  props : MemoryPoolProperties
  baseIdx : Nat
  offset : Nat
  size : Nat
  alignment : Nat
  noSub : Bool
deriving DecidableEq, Repr

/-- Scan the Base Allocations of a pool list in order for one that can
satisfy the request, skipping dedicated allocations. -/
def scanPools (size align : Nat) : List BaseAlloc → Nat →
    Option (Nat × Nat × BaseAlloc)
  | [], _ => none
  | ba :: rest, idx =>
    if ba.noSub then scanPools size align rest (idx + 1)
    else
      match buddyAllocate ba.order size align ba.buddy with
      | some (o, bd) => some (idx, o, { ba with buddy := bd })
      | none => scanPools size align rest (idx + 1)

/-- Result of an `AllocGpuMem` call. -/
inductive AllocResult where
  | ok (handle : SubAllocHandle)
  | err (e : AllocErr)
deriving DecidableEq, Repr

namespace InternalMemMgr

/-- Modelled from the spec: the body of `InternalMemMgr::AllocGpuMem` after
pool-information validation (not under `src/`).  Dedicated requests get a
fresh Base Allocation of exactly the requested size; otherwise the pool
list is scanned for space and, failing that, a new Base Allocation of at
least the pool minimum size is created and sub-allocated from.  Every
failure path leaves the registry as it was, releasing any reservation made
during the attempt. -/
def AllocGpuMemCore (cfg : MgrConfig) (info : InternalMemCreateInfo)
    (st : MgrState) : AllocResult × MgrState :=
  let props := calcPoolProperties info
  let list := lookupPool props st.pools
  if info.flags.noSuballocation then
    match tryHeaps cfg info.size props.heaps st.backend with
    | .error b' => (.err .outOfDeviceMemory, { st with backend := b' })
    | .ok (hp, b') =>
      (.ok ⟨props, list.length, 0, info.size, info.alignment, true⟩,
       ⟨b', setPool props (list ++ [⟨hp, 0, info.size, [], true⟩]) st.pools⟩)
  else
    match scanPools info.size info.alignment list 0 with
    | some (idx, off, ba') =>
      (.ok ⟨props, idx, off, info.size, info.alignment, false⟩,
       { st with pools := setPool props (list.set idx ba') st.pools })
    | none =>
      let ord := max (orderFor info.size info.alignment) cfg.minPoolOrder
      match tryHeaps cfg (2 ^ ord) props.heaps st.backend with
      | .error b' => (.err .outOfDeviceMemory, { st with backend := b' })
      | .ok (hp, b') =>
        match buddyAllocate ord info.size info.alignment (initBuddy ord) with
        | none =>
          (.err .outOfDeviceMemory,
           { st with backend := releaseAll hp (2 ^ ord) (List.range cfg.numDevices) b' })
        | some (off, bd) =>
          (.ok ⟨props, list.length, off, info.size, info.alignment, false⟩,
           ⟨b', setPool props (list ++ [⟨hp, ord, 2 ^ ord, bd, false⟩]) st.pools⟩)

/-- Modelled from the spec: `InternalMemMgr::AllocGpuMem` (body not under
`src/`).  A caller-supplied precomputed pool information is validated
against the requested configuration first (the defensive
`InvalidPoolSignature` check of spec sections 7 and 9, strengthening the
assert-only `CheckProvidedSubAllocPoolInfo` of the header). -/
def AllocGpuMem (cfg : MgrConfig) (info : InternalMemCreateInfo)
    (st : MgrState) : AllocResult × MgrState :=
  match info.pPoolInfo with
  | some p =>
    if p ≠ calcPoolProperties info then (.err .invalidPoolSignature, st)
    else AllocGpuMemCore cfg info st
  | none => AllocGpuMemCore cfg info st

/-- Modelled from the spec: `InternalMemMgr::FreeGpuMem` (body not under
`src/`).  Never fails: for a dedicated handle the whole Base Allocation is
released back to the heap backend and removed from the registry; otherwise
the handle's range is returned to the owning Base Allocation's buddy
allocator.  Freeing a foreign handle is undefined behaviour; the model
leaves the state unchanged. -/
def FreeGpuMem (cfg : MgrConfig) (hmem : SubAllocHandle) (st : MgrState) :
    MgrState :=
  let list := lookupPool hmem.props st.pools
  match list.get? hmem.baseIdx with
  | none => st
  | some ba =>
    if ba.noSub then
      ⟨releaseAll ba.heap ba.size (List.range cfg.numDevices) st.backend,
       setPool hmem.props (list.eraseIdx hmem.baseIdx) st.pools⟩
    else
      ⟨st.backend,
       setPool hmem.props
         (list.set hmem.baseIdx
           { ba with buddy := buddyFree ba.order hmem.offset hmem.size hmem.alignment ba.buddy })
         st.pools⟩

end InternalMemMgr

/-! ### Concrete fixture data used to exercise the manager operations -/

/-- Fixture pool signature: a dedicated read-write pool on heap 0. -/
def sigW : MemoryPoolProperties := ⟨⟨false, false, true⟩, 0, [0]⟩

/-- Fixture Base Allocation: dedicated, 5 units reserved from heap 0. -/
def baW : BaseAlloc := ⟨0, 0, 5, [], true⟩

/-- Fixture manager state: one device with 3 free units on heap 0, and one
registered dedicated Base Allocation. -/
def stW : MgrState := ⟨[[3]], [(sigW, [baW])]⟩

/-- Fixture handle covering the whole fixture Base Allocation. -/
def hmemW : SubAllocHandle := ⟨sigW, 0, 0, 5, 1, true⟩

/-- Fixture configuration: one device, one heap kind. -/
def cfgW : MgrConfig := ⟨1, 1, 0⟩

/-! ## InternalMemory handle class (embedded from
`internal_mem_mgr.h`, lines 97-178) -/

/-- Modelled from the spec: the fixed maximum device count `MaxPalDevices`
declared in `vk_defines.h`, which is not under `src/`; the claims do not
depend on its concrete value. -/
def MaxPalDevices : Nat := 4

/-- Source `DeviceGroupMemory`: per-device PAL memory object pointers and
persistently mapped CPU addresses (pointers as naturals, `0` = null). -/
structure DeviceGroupMemory where
  m_pPalMemory : List Nat
  m_pPersistentCpuAddr : List Nat
deriving DecidableEq, Repr

/-- Source `InternalMemoryPool`: group memory plus the buddy allocator
pointer (`0` = null). -/
structure InternalMemoryPool where
  groupMemory : DeviceGroupMemory
  pBuddyAllocator : Nat
deriving DecidableEq, Repr

/-- Source `InternalMemory`: the sub-allocation bookkeeping fields. -/
structure InternalMemory where
  m_memoryPool : InternalMemoryPool
  m_gpuVA : List Nat
  m_offset : Nat
  m_size : Nat
  m_alignment : Nat
deriving DecidableEq, Repr

/-- Source `DeviceGroupMemory::PalMemory`. -/
def DeviceGroupMemory.PalMemory (g : DeviceGroupMemory) (idx : Nat) : Nat :=
  g.m_pPalMemory.getD idx 0

/-- Source `InternalMemory::InternalMemory()` (lines 170-178): zeroes the
offset, size and alignment and `memset`s the virtual-address array and the
memory-pool reference to zero. -/
def InternalMemory.init : InternalMemory :=
  ⟨⟨⟨List.replicate MaxPalDevices 0, List.replicate MaxPalDevices 0⟩, 0⟩,
   List.replicate MaxPalDevices 0, 0, 0, 0⟩

/-- Source `InternalMemory::PalMemory`. -/
def InternalMemory.PalMemory (m : InternalMemory) (idx : Nat) : Nat :=
  m.m_memoryPool.groupMemory.PalMemory idx

/-- Source `InternalMemory::GpuVirtAddr`. -/
def InternalMemory.GpuVirtAddr (m : InternalMemory) (idx : Nat) : Nat :=
  m.m_gpuVA.getD idx 0

/-- Source `InternalMemory::Offset`. -/
def InternalMemory.Offset (m : InternalMemory) : Nat := m.m_offset

/-- Source `InternalMemory::Size`. -/
def InternalMemory.Size (m : InternalMemory) : Nat := m.m_size

/-! ## Vulkan settings loader (embedded from `settings.cpp`) -/

/-- Source enum `TextureFilterOptimizationSettings` (values
`TextureFilterOptimizationsDisabled`, `...Enabled`, `...Aggressive`). -/
inductive TextureFilterOptimizationSettings where
  | disabled | enabled | aggressive
deriving DecidableEq, Repr

/-- Source `RuntimeSettings`, restricted to the fields the embedded
functions read or write; the many remaining hash-relevant fields are
abstracted into `remainingFields`, which `GenerateSettingHash` neither
reads nor writes. -/
structure RuntimeSettings where
  appGpuID : Nat
  vulkanTexFilterQuality : TextureFilterOptimizationSettings
  enableTurboSync : Bool
  forceAppProfileEnable : Bool
  forceAppProfileValue : Nat
  preciseAnisoMode : Nat
  remainingFields : Nat
deriving DecidableEq, Repr

namespace VulkanSettingsLoader

/-- Source `VulkanSettingsLoader::GenerateSettingHash` (settings.cpp lines
702-717): temporarily zeroes the CCC-controlled fields `appGpuID` and
`vulkanTexFilterQuality`, hashes the whole settings structure, then
restores both fields.  The external `MetroHash128` over the structure's
bytes is abstracted as the parameter `H`. -/
def GenerateSettingHash (H : RuntimeSettings → Nat) (s : RuntimeSettings) :
    RuntimeSettings × Nat :=
  let appGpuID := s.appGpuID
  let s1 := { s with appGpuID := 0 }
  let vulkanTexFilterQuality := s1.vulkanTexFilterQuality
  let s2 := { s1 with vulkanTexFilterQuality := .disabled }
  let settingHash := H s2
  let s3 := { s2 with appGpuID := appGpuID }
  ({ s3 with vulkanTexFilterQuality := vulkanTexFilterQuality }, settingHash)

/-- Environment of one `ProcessSettings` pass: whether
`OverrideProfiledSettings` succeeds, and the `forceAppProfileEnable` /
`forceAppProfileValue` settings produced by the settings reads (assumed
stable across the recursive call, as in the claim). -/
structure SettingsEnv where
  overrideSucceeds : Bool
  forceAppProfileEnable : Bool
  forceAppProfileValue : Nat
deriving DecidableEq, Repr

/-- Profile update of one `ProcessSettings` pass (settings.cpp lines
558-562): when `forceAppProfileEnable` is set the profile becomes
`forceAppProfileValue`, otherwise it is unchanged.  App profiles are their
enumeration values, as in the source's `static_cast`. -/
def processPass (env : SettingsEnv) (p : Nat) : Nat :=
  if env.forceAppProfileEnable then env.forceAppProfileValue else p

/-- Source `VulkanSettingsLoader::ProcessSettings` (settings.cpp lines
534-580), with the self-recursion made explicit through a fuel argument:
`none` means the recursion would have to go deeper than the fuel allows.
Returns whether the pass chain succeeded and the final profile. -/
def ProcessSettings (env : SettingsEnv) : Nat → Nat → Option (Bool × Nat)
  | 0, _ => none
  | fuel + 1, p =>
    if env.overrideSucceeds = false then some (false, p)
    else
      let p' := processPass env p
      if p' ≠ p then ProcessSettings env fuel p'
      else some (true, p')

end VulkanSettingsLoader

/-- Fixture hash function standing in for `MetroHash128` in witnesses. -/
def hashW : RuntimeSettings → Nat := fun s => 2 * s.remainingFields + s.appGpuID

/-! ### Basic facts about the state representation -/

theorem listAt_setAt_self (s : FreeLists) (k : Nat) (l : List Nat) (hk : k < s.length) :
    listAt (setAt s k l) k = l := by
  simp [listAt, setAt, List.getD, List.getElem?_set_self' , hk]

theorem listAt_setAt_ne (s : FreeLists) (k j : Nat) (l : List Nat) (h : j ≠ k) :
    listAt (setAt s k l) j = listAt s j := by
  simp [listAt, setAt, List.getD, List.getElem?_set_ne (Ne.symm h)]

theorem length_setAt (s : FreeLists) (k : Nat) (l : List Nat) :
    (setAt s k l).length = s.length := by
  simp [setAt]

theorem setAt_listAt_self (s : FreeLists) (k : Nat) :
    setAt s k (listAt s k) = s := by
  induction s generalizing k with
  | nil => simp [setAt]
  | cons a t ih =>
    cases k with
    | zero => simp [setAt, listAt, List.getD]
    | succ k => simpa [setAt, listAt, List.getD] using ih k

theorem listAt_eq_nil_of_le (s : FreeLists) (k : Nat) (h : s.length ≤ k) :
    listAt s k = [] := by
  simp [listAt, List.getD, List.getElem?_eq_none h]

theorem getD_set_self {α : Type} (l : List α) (i : Nat) (v d : α) (h : i < l.length) :
    (l.set i v).getD i d = v := by
  simp [List.getD, List.getElem?_set_self', List.getElem?_eq_getElem h, Function.const]

theorem getD_set_ne {α : Type} (l : List α) (i j : Nat) (v d : α) (h : i ≠ j) :
    (l.set i v).getD j d = l.getD j d := by
  simp [List.getD, List.getElem?_set_ne h]

theorem list_set_getD {α : Type} (l : List α) (i : Nat) (d : α) :
    l.set i (l.getD i d) = l := by
  induction l generalizing i with
  | nil => simp
  | cons a t ih =>
    cases i with
    | zero => simp [List.getD]
    | succ i => simpa [List.getD] using ih i

/-! ### Facts about sorted insertion -/

theorem mem_insertSorted (x y : Nat) (l : List Nat) :
    y ∈ insertSorted x l ↔ y = x ∨ y ∈ l := by
  induction l with
  | nil => simp [insertSorted]
  | cons a t ih =>
    by_cases hx : x ≤ a
    · simp only [insertSorted, if_pos hx, List.mem_cons]
    · simp only [insertSorted, if_neg hx, List.mem_cons, ih]
      tauto

theorem insertSorted_pairwise (x : Nat) (l : List Nat) (hs : l.Pairwise (· < ·))
    (hx : x ∉ l) : (insertSorted x l).Pairwise (· < ·) := by
  induction l with
  | nil => simp [insertSorted]
  | cons a t ih =>
    rcases List.pairwise_cons.1 hs with ⟨ha, ht⟩
    by_cases hxa : x ≤ a
    · have hne : x ≠ a := fun e => hx (e ▸ List.mem_cons_self a t)
      have hlt : x < a := lt_of_le_of_ne hxa hne
      simp only [insertSorted, if_pos hxa]
      refine List.pairwise_cons.2 ⟨?_, hs⟩
      intro b hb
      rcases List.mem_cons.1 hb with rfl | hbt
      · exact hlt
      · exact lt_trans hlt (ha b hbt)
    · have hax : a < x := Nat.lt_of_not_le hxa
      simp only [insertSorted, if_neg hxa]
      refine List.pairwise_cons.2
        ⟨?_, ih ht (fun hmem => hx (List.mem_cons_of_mem a hmem))⟩
      intro b hb
      rcases (mem_insertSorted x b t).1 hb with rfl | hbt
      · exact hax
      · exact ha b hbt

theorem insertSorted_eq_cons (x : Nat) (l : List Nat) (h : ∀ y ∈ l, x < y) :
    insertSorted x l = x :: l := by
  cases l with
  | nil => rfl
  | cons a t => simp [insertSorted, le_of_lt (h a (List.mem_cons_self a t))]

/-! ### Facts about the initial buddy state -/

theorem length_initBuddy (n : Nat) : (initBuddy n).length = n + 1 := by
  simp [initBuddy]

theorem listAt_initBuddy (n k : Nat) (hk : k < n + 1) :
    listAt (initBuddy n) k = if k = n then [0] else [] := by
  simp [initBuddy, listAt, List.getD, List.getElem?_map, List.getElem?_range hk]

/-! ### Shape lemmas for `allocBlock` -/

theorem allocBlock_length (n k : Nat) (s : FreeLists) (o : Nat) (s' : FreeLists)
    (h : allocBlock n k s = some (o, s')) : s'.length = s.length := by
  unfold allocBlock at h
  split at h
  next o0 rest heq =>
    simp only [Option.some.injEq, Prod.mk.injEq] at h
    obtain ⟨rfl, rfl⟩ := h
    exact length_setAt s k rest
  next heq =>
    split at h
    next hk =>
      split at h
      next hrec => exact Option.noConfusion h
      next o1 s1 hrec =>
        simp only [Option.some.injEq, Prod.mk.injEq] at h
        obtain ⟨rfl, rfl⟩ := h
        rw [length_setAt]
        exact allocBlock_length n (k + 1) s o1 s1 hrec
    next hk => exact Option.noConfusion h
termination_by n - k
decreasing_by omega

theorem allocBlock_lower (n k : Nat) (s : FreeLists) (o : Nat) (s' : FreeLists)
    (h : allocBlock n k s = some (o, s')) : ∀ i < k, listAt s' i = listAt s i := by
  intro i hi
  unfold allocBlock at h
  split at h
  next o0 rest heq =>
    simp only [Option.some.injEq, Prod.mk.injEq] at h
    obtain ⟨rfl, rfl⟩ := h
    exact listAt_setAt_ne s k i rest (Nat.ne_of_lt hi)
  next heq =>
    split at h
    next hk =>
      split at h
      next hrec => exact Option.noConfusion h
      next o1 s1 hrec =>
        simp only [Option.some.injEq, Prod.mk.injEq] at h
        obtain ⟨rfl, rfl⟩ := h
        rw [listAt_setAt_ne s1 k i _ (Nat.ne_of_lt hi)]
        exact allocBlock_lower n (k + 1) s o1 s1 hrec i (Nat.lt_succ_of_lt hi)
    next hk => exact Option.noConfusion h
termination_by n - k
decreasing_by omega

theorem allocBlock_align (n k : Nat) (s : FreeLists) (halign : AlignedLists s)
    (o : Nat) (s' : FreeLists) (h : allocBlock n k s = some (o, s')) :
    o % 2 ^ k = 0 := by
  unfold allocBlock at h
  split at h
  next o0 rest heq =>
    simp only [Option.some.injEq, Prod.mk.injEq] at h
    obtain ⟨rfl, rfl⟩ := h
    have hk : k < s.length := by
      by_contra hle
      rw [listAt_eq_nil_of_le s k (Nat.le_of_not_lt hle)] at heq
      exact List.noConfusion heq
    exact halign k hk o0 (heq ▸ List.mem_cons_self o0 rest)
  next heq =>
    split at h
    next hk =>
      split at h
      next hrec => exact Option.noConfusion h
      next o1 s1 hrec =>
        simp only [Option.some.injEq, Prod.mk.injEq] at h
        obtain ⟨rfl, rfl⟩ := h
        have := allocBlock_align n (k + 1) s halign o1 s1 hrec
        exact Nat.mod_eq_zero_of_dvd
          (dvd_trans (pow_dvd_pow 2 (Nat.le_succ k)) (Nat.dvd_of_mod_eq_zero this))
    next hk => exact Option.noConfusion h
termination_by n - k
decreasing_by omega

/-! ### The allocate/free round trip (claim C6 core) -/

theorem allocBlock_roundtrip (n k : Nat) (s : FreeLists) (hlen : s.length = n + 1)
    (hsort : SortedLists s) (halign : AlignedLists s) (hmerge : MergedLists n s)
    (o : Nat) (s' : FreeLists) (h : allocBlock n k s = some (o, s')) :
    freeBlock n o k s' = s := by
  unfold allocBlock at h
  split at h
  next o0 rest heq =>
    simp only [Option.some.injEq, Prod.mk.injEq] at h
    obtain ⟨rfl, rfl⟩ := h
    have hk : k < s.length := by
      by_contra hle
      rw [listAt_eq_nil_of_le s k (Nat.le_of_not_lt hle)] at heq
      exact List.noConfusion heq
    have hrest : listAt (setAt s k rest) k = rest := listAt_setAt_self s k rest hk
    unfold freeBlock
    rw [dif_neg]
    · rw [hrest, insertSorted_eq_cons o0 rest (by
        have hp := hsort k hk
        rw [heq] at hp
        exact (List.pairwise_cons.1 hp).1)]
      show setAt (setAt s k rest) k (o0 :: rest) = s
      unfold setAt
      rw [List.set_set]
      rw [← heq]
      exact setAt_listAt_self s k
    · rintro ⟨hkn, hbm⟩
      rw [hrest] at hbm
      have : buddyOf o0 k ∉ listAt s k :=
        hmerge k hkn o0 (heq ▸ List.mem_cons_self o0 rest)
      exact this (heq ▸ List.mem_cons_of_mem o0 hbm)
  next heq =>
    split at h
    next hk =>
      split at h
      next hrec => exact Option.noConfusion h
      next o1 s1 hrec =>
        simp only [Option.some.injEq, Prod.mk.injEq] at h
        obtain ⟨rfl, rfl⟩ := h
        have h1k : listAt s1 k = [] :=
          (allocBlock_lower n (k + 1) s o1 s1 hrec k (Nat.lt_succ_self k)).trans heq
        have hal : o1 % 2 ^ (k + 1) = 0 := allocBlock_align n (k + 1) s halign o1 s1 hrec
        have hbud : buddyOf o1 k = o1 + 2 ^ k := by simp [buddyOf, hal]
        have hlen1 : s1.length = s.length := allocBlock_length n (k + 1) s o1 s1 hrec
        have hks1 : k < s1.length := by omega
        rw [h1k]
        show freeBlock n o1 k (setAt s1 k (insertSorted (o1 + 2 ^ k) [])) = s
        have hsing : insertSorted (o1 + 2 ^ k) [] = [o1 + 2 ^ k] := rfl
        rw [hsing]
        have hmem : buddyOf o1 k ∈ listAt (setAt s1 k [o1 + 2 ^ k]) k := by
          rw [listAt_setAt_self s1 k _ hks1, hbud]
          exact List.mem_cons_self _ _
        unfold freeBlock
        rw [dif_pos ⟨hk, hmem⟩]
        rw [listAt_setAt_self s1 k _ hks1, hbud]
        rw [List.erase_cons_head, Nat.min_eq_left (Nat.le_add_right o1 (2 ^ k))]
        show freeBlock n o1 (k + 1) (setAt (setAt s1 k [o1 + 2 ^ k]) k []) = s
        unfold setAt
        rw [List.set_set, ← h1k]
        show freeBlock n o1 (k + 1) (setAt s1 k (listAt s1 k)) = s
        rw [setAt_listAt_self s1 k]
        exact allocBlock_roundtrip n (k + 1) s hlen hsort halign hmerge o1 s1 hrec
    next hk => exact Option.noConfusion h
termination_by n - k
decreasing_by omega

/-! ### Point-level reasoning about blocks -/

theorem blocksDisjoint_no_common (o1 k1 o2 k2 x : Nat) (hd : BlocksDisjoint o1 k1 o2 k2)
    (h1 : InBlock o1 k1 x) (h2 : InBlock o2 k2 x) : False := by
  unfold BlocksDisjoint at hd
  unfold InBlock at h1 h2
  omega

theorem blocksDisjoint_of_no_common (o1 k1 o2 k2 : Nat)
    (h : ∀ x, InBlock o1 k1 x → InBlock o2 k2 x → False) : BlocksDisjoint o1 k1 o2 k2 := by
  unfold BlocksDisjoint
  by_contra hc
  push_neg at hc
  have h1 : 0 < 2 ^ k1 := pow_pos (by norm_num) k1
  have h2 : 0 < 2 ^ k2 := pow_pos (by norm_num) k2
  exact h (max o1 o2) (by unfold InBlock; omega) (by unfold InBlock; omega)

theorem blocksDisjoint_symm (o1 k1 o2 k2 : Nat) (h : BlocksDisjoint o1 k1 o2 k2) :
    BlocksDisjoint o2 k2 o1 k1 := Or.symm h

theorem freePt_setAt_iff (s : FreeLists) (k : Nat) (l : List Nat) (hk : k < s.length)
    (x : Nat) :
    FreePt (setAt s k l) x ↔
      (∃ o ∈ l, InBlock o k x) ∨
      (∃ j, j < s.length ∧ j ≠ k ∧ ∃ o ∈ listAt s j, InBlock o j x) := by
  constructor
  · rintro ⟨j, hj, o, ho, hx⟩
    rw [length_setAt] at hj
    by_cases hjk : j = k
    · subst hjk
      rw [listAt_setAt_self s j l hk] at ho
      exact Or.inl ⟨o, ho, hx⟩
    · rw [listAt_setAt_ne s k j l hjk] at ho
      exact Or.inr ⟨j, hj, hjk, o, ho, hx⟩
  · rintro (⟨o, ho, hx⟩ | ⟨j, hj, hjk, o, ho, hx⟩)
    · exact ⟨k, by rw [length_setAt]; exact hk, o, by rw [listAt_setAt_self s k l hk]; exact ho, hx⟩
    · exact ⟨j, by rw [length_setAt]; exact hj, o, by rw [listAt_setAt_ne s k j l hjk]; exact ho, hx⟩

/-! ### Full behavioural specification of `allocBlock` (claim C1 core) -/

theorem allocBlock_spec (n k : Nat) (s : FreeLists) (hlen : s.length = n + 1)
    (hsort : SortedLists s) (halign : AlignedLists s) (hdisj : FreeDisj s)
    (o : Nat) (s' : FreeLists) (h : allocBlock n k s = some (o, s')) :
    (∀ x, FreePt s' x → FreePt s x) ∧
    (∀ x, InBlock o k x → FreePt s x) ∧
    (∀ x, InBlock o k x → ¬ FreePt s' x) ∧
    SortedLists s' ∧ AlignedLists s' ∧ FreeDisj s' := by
  unfold allocBlock at h
  split at h
  next o0 rest heq =>
    simp only [Option.some.injEq, Prod.mk.injEq] at h
    obtain ⟨rfl, rfl⟩ := h
    have hk : k < s.length := by
      by_contra hle
      rw [listAt_eq_nil_of_le s k (Nat.le_of_not_lt hle)] at heq
      exact List.noConfusion heq
    have ho0mem : o0 ∈ listAt s k := heq ▸ List.mem_cons_self o0 rest
    have hrestmem : ∀ y ∈ rest, y ∈ listAt s k :=
      fun y hy => heq ▸ List.mem_cons_of_mem o0 hy
    have hpw : (o0 :: rest).Pairwise (· < ·) := heq ▸ hsort k hk
    have hlt : ∀ y ∈ rest, o0 < y := (List.pairwise_cons.1 hpw).1
    refine ⟨?_, ?_, ?_, ?_, ?_, ?_⟩
    · intro x hx
      rcases (freePt_setAt_iff s k rest hk x).1 hx with ⟨o2, ho2, hx2⟩ | ⟨j, hj, _, o2, ho2, hx2⟩
      · exact ⟨k, hk, o2, hrestmem o2 ho2, hx2⟩
      · exact ⟨j, hj, o2, ho2, hx2⟩
    · intro x hx
      exact ⟨k, hk, o0, ho0mem, hx⟩
    · intro x hx hmem
      rcases (freePt_setAt_iff s k rest hk x).1 hmem with ⟨o2, ho2, hx2⟩ | ⟨j, hj, hjk, o2, ho2, hx2⟩
      · have hne : o0 ≠ o2 := Nat.ne_of_lt (hlt o2 ho2)
        exact blocksDisjoint_no_common o2 k o0 k x
          (hdisj k hk k hk o2 (hrestmem o2 ho2) o0 ho0mem (Or.inr (Ne.symm hne))) hx2 hx
      · exact blocksDisjoint_no_common o2 j o0 k x
          (hdisj j hj k hk o2 ho2 o0 ho0mem (Or.inl hjk)) hx2 hx
    · intro j hj
      rw [length_setAt] at hj
      by_cases hjk : j = k
      · subst hjk
        rw [listAt_setAt_self s j rest hk]
        exact hpw.sublist (List.sublist_cons_self o0 rest)
      · rw [listAt_setAt_ne s k j rest hjk]
        exact hsort j hj
    · intro j hj o2 ho2
      rw [length_setAt] at hj
      by_cases hjk : j = k
      · subst hjk
        rw [listAt_setAt_self s j rest hk] at ho2
        exact halign j hj o2 (hrestmem o2 ho2)
      · rw [listAt_setAt_ne s k j rest hjk] at ho2
        exact halign j hj o2 ho2
    · intro j1 hj1 j2 hj2 o1' ho1 o2' ho2 hguard
      rw [length_setAt] at hj1 hj2
      have hmem1 : o1' ∈ listAt s j1 := by
        by_cases hjk : j1 = k
        · subst hjk
          rw [listAt_setAt_self s j1 rest hk] at ho1
          exact hrestmem o1' ho1
        · rwa [listAt_setAt_ne s k j1 rest hjk] at ho1
      have hmem2 : o2' ∈ listAt s j2 := by
        by_cases hjk : j2 = k
        · subst hjk
          rw [listAt_setAt_self s j2 rest hk] at ho2
          exact hrestmem o2' ho2
        · rwa [listAt_setAt_ne s k j2 rest hjk] at ho2
      exact hdisj j1 hj1 j2 hj2 o1' hmem1 o2' hmem2 hguard
  next heq =>
    split at h
    next hk =>
      split at h
      next hrec => exact Option.noConfusion h
      next o1 s1 hrec =>
        simp only [Option.some.injEq, Prod.mk.injEq] at h
        obtain ⟨rfl, rfl⟩ := h
        have h1k : listAt s1 k = [] :=
          (allocBlock_lower n (k + 1) s o1 s1 hrec k (Nat.lt_succ_self k)).trans heq
        obtain ⟨ihA, ihB, ihC, ihSort, ihAlign, ihDisj⟩ :=
          allocBlock_spec n (k + 1) s hlen hsort halign hdisj o1 s1 hrec
        have hlen1 : s1.length = s.length := allocBlock_length n (k + 1) s o1 s1 hrec
        have hal : o1 % 2 ^ (k + 1) = 0 := allocBlock_align n (k + 1) s halign o1 s1 hrec
        have hps : 2 ^ (k + 1) = 2 ^ k + 2 ^ k := by rw [pow_succ]; ring
        have hks : k < s.length := by omega
        have hks1 : k < s1.length := by omega
        have hsub : ∀ x, InBlock (o1 + 2 ^ k) k x → InBlock o1 (k + 1) x := by
          intro x hx
          unfold InBlock at hx ⊢
          omega
        have hsubo : ∀ x, InBlock o1 k x → InBlock o1 (k + 1) x := by
          intro x hx
          unfold InBlock at hx ⊢
          omega
        rw [h1k]
        have hmemS1 : ∀ j, j < s1.length → j ≠ k →
            ∀ o2 ∈ listAt s1 j, ∀ x, InBlock o2 j x → FreePt s1 x :=
          fun j hj _ o2 ho2 x hx => ⟨j, hj, o2, ho2, hx⟩
        refine ⟨?_, ?_, ?_, ?_, ?_, ?_⟩
        · intro x hx
          rcases (freePt_setAt_iff s1 k _ hks1 x).1 hx with ⟨o2, ho2, hx2⟩ | ⟨j, hj, hjk, o2, ho2, hx2⟩
          · rcases List.mem_singleton.1 ho2 with rfl
            exact ihB x (hsub x hx2)
          · exact ihA x ⟨j, by omega, o2, ho2, hx2⟩
        · intro x hx
          exact ihB x (hsubo x hx)
        · intro x hx hmem
          rcases (freePt_setAt_iff s1 k _ hks1 x).1 hmem with ⟨o2, ho2, hx2⟩ | ⟨j, hj, hjk, o2, ho2, hx2⟩
          · rcases List.mem_singleton.1 ho2 with rfl
            unfold InBlock at hx hx2
            omega
          · exact ihC x (hsubo x hx) ⟨j, by omega, o2, ho2, hx2⟩
        · intro j hj
          rw [length_setAt] at hj
          by_cases hjk : j = k
          · subst hjk
            rw [listAt_setAt_self s1 j _ hks1]
            exact List.pairwise_singleton _ _
          · rw [listAt_setAt_ne s1 k j _ hjk]
            exact ihSort j (by omega)
        · intro j hj o2 ho2
          rw [length_setAt] at hj
          by_cases hjk : j = k
          · subst hjk
            rw [listAt_setAt_self s1 j _ hks1] at ho2
            rcases List.mem_singleton.1 ho2 with rfl
            have ho1k : o1 % 2 ^ j = 0 :=
              Nat.mod_eq_zero_of_dvd
                (dvd_trans (pow_dvd_pow 2 (Nat.le_succ j)) (Nat.dvd_of_mod_eq_zero hal))
            simp [Nat.add_mod, ho1k]
          · rw [listAt_setAt_ne s1 k j _ hjk] at ho2
            exact ihAlign j (by omega) o2 ho2
        · intro j1 hj1 j2 hj2 o1' ho1 o2' ho2 hguard
          rw [length_setAt] at hj1 hj2
          by_cases hjk1 : j1 = k <;> by_cases hjk2 : j2 = k
          · rcases hguard with hg | hg
            · exact absurd (hjk1.trans hjk2.symm) hg
            · rw [hjk1] at ho1
              rw [hjk2] at ho2
              rw [listAt_setAt_self s1 k _ hks1] at ho1 ho2
              rcases List.mem_singleton.1 ho1 with rfl
              rcases List.mem_singleton.1 ho2 with rfl
              exact absurd rfl hg
          · rw [hjk1] at ho1 ⊢
            rw [listAt_setAt_self s1 k _ hks1] at ho1
            rcases List.mem_singleton.1 ho1 with rfl
            rw [listAt_setAt_ne s1 k j2 _ hjk2] at ho2
            refine blocksDisjoint_of_no_common _ _ _ _ (fun x hx1 hx2 => ?_)
            exact ihC x (hsub x hx1) ⟨j2, by omega, o2', ho2, hx2⟩
          · rw [hjk2] at ho2 ⊢
            rw [listAt_setAt_self s1 k _ hks1] at ho2
            rcases List.mem_singleton.1 ho2 with rfl
            rw [listAt_setAt_ne s1 k j1 _ hjk1] at ho1
            refine blocksDisjoint_symm _ _ _ _
              (blocksDisjoint_of_no_common _ _ _ _ (fun x hx1 hx2 => ?_))
            exact ihC x (hsub x hx1) ⟨j1, by omega, o1', ho1, hx2⟩
          · rw [listAt_setAt_ne s1 k j1 _ hjk1] at ho1
            rw [listAt_setAt_ne s1 k j2 _ hjk2] at ho2
            exact ihDisj j1 (by omega) j2 (by omega) o1' ho1 o2' ho2 hguard
    next hk => exact Option.noConfusion h
termination_by n - k
decreasing_by omega

/-! ### Full behavioural specification of `freeBlock` -/

theorem buddy_merge (o k : Nat) (hal : o % 2 ^ k = 0) :
    min o (buddyOf o k) % 2 ^ (k + 1) = 0 ∧
    ∀ x, InBlock (min o (buddyOf o k)) (k + 1) x ↔
      InBlock o k x ∨ InBlock (buddyOf o k) k x := by
  have hps : 2 ^ (k + 1) = 2 ^ k + 2 ^ k := by rw [pow_succ]; ring
  by_cases h2 : o % 2 ^ (k + 1) = 0
  · have hb : buddyOf o k = o + 2 ^ k := by simp [buddyOf, h2]
    rw [hb, Nat.min_eq_left (Nat.le_add_right _ _)]
    refine ⟨h2, fun x => ?_⟩
    unfold InBlock
    omega
  · have hb : buddyOf o k = o - 2 ^ k := by simp [buddyOf, h2]
    obtain ⟨q, hq⟩ := Nat.dvd_of_mod_eq_zero hal
    have hq2 : q % 2 = 1 := by
      rcases Nat.mod_two_eq_zero_or_one q with h0 | h1
      · exfalso
        apply h2
        obtain ⟨r, hr⟩ := Nat.dvd_of_mod_eq_zero h0
        have : o = 2 ^ (k + 1) * r := by rw [hq, hr, pow_succ]; ring
        rw [this]
        exact Nat.mul_mod_right _ _
      · exact h1
    obtain ⟨r, hr⟩ : ∃ r, q = 2 * r + 1 := ⟨q / 2, by omega⟩
    have hco : o = 2 ^ (k + 1) * r + 2 ^ k := by rw [hq, hr, pow_succ]; ring
    have hge : 2 ^ k ≤ o := by omega
    have hsubr : o - 2 ^ k = 2 ^ (k + 1) * r := by omega
    have hmod : (o - 2 ^ k) % 2 ^ (k + 1) = 0 := by
      rw [hsubr]
      exact Nat.mul_mod_right _ _
    rw [hb, Nat.min_eq_right (Nat.sub_le _ _)]
    refine ⟨hmod, fun x => ?_⟩
    unfold InBlock
    omega

theorem freeBlock_spec (n k o : Nat) (s : FreeLists)
    (hsort : SortedLists s) (halign : AlignedLists s) (hdisj : FreeDisj s)
    (hal : o % 2 ^ k = 0)
    (hfree : ∀ x, InBlock o k x → ¬ FreePt s x) :
    (freeBlock n o k s).length = s.length ∧
    (∀ x, FreePt (freeBlock n o k s) x → FreePt s x ∨ InBlock o k x) ∧
    SortedLists (freeBlock n o k s) ∧ AlignedLists (freeBlock n o k s) ∧
    FreeDisj (freeBlock n o k s) := by
  unfold freeBlock
  split
  next hc =>
    obtain ⟨hkn, hbm⟩ := hc
    have hk : k < s.length := by
      by_contra hle
      rw [listAt_eq_nil_of_le s k (Nat.le_of_not_lt hle)] at hbm
      exact List.not_mem_nil _ hbm
    have hnd : (listAt s k).Nodup :=
      (hsort k hk).imp (fun hlt => Nat.ne_of_lt hlt)
    obtain ⟨halm, hiffm⟩ := buddy_merge o k hal
    have hers : ((listAt s k).erase (buddyOf o k)).Sublist (listAt s k) :=
      List.erase_sublist _ _
    have hsort1 : SortedLists (setAt s k ((listAt s k).erase (buddyOf o k))) := by
      intro j hj
      rw [length_setAt] at hj
      by_cases hjk : j = k
      · rw [hjk, listAt_setAt_self s k _ hk]
        exact (hsort k hk).sublist hers
      · rw [listAt_setAt_ne s k j _ hjk]
        exact hsort j hj
    have halign1 : AlignedLists (setAt s k ((listAt s k).erase (buddyOf o k))) := by
      intro j hj o2 ho2
      rw [length_setAt] at hj
      by_cases hjk : j = k
      · rw [hjk, listAt_setAt_self s k _ hk] at ho2
        rw [hjk]
        exact halign k hk o2 (hers.mem ho2)
      · rw [listAt_setAt_ne s k j _ hjk] at ho2
        exact halign j hj o2 ho2
    have hdisj1 : FreeDisj (setAt s k ((listAt s k).erase (buddyOf o k))) := by
      intro j1 hj1 j2 hj2 o1' ho1 o2' ho2 hguard
      rw [length_setAt] at hj1 hj2
      have hmem1 : o1' ∈ listAt s j1 := by
        by_cases hjk : j1 = k
        · rw [hjk, listAt_setAt_self s k _ hk] at ho1
          exact hjk ▸ hers.mem ho1
        · rwa [listAt_setAt_ne s k j1 _ hjk] at ho1
      have hmem2 : o2' ∈ listAt s j2 := by
        by_cases hjk : j2 = k
        · rw [hjk, listAt_setAt_self s k _ hk] at ho2
          exact hjk ▸ hers.mem ho2
        · rwa [listAt_setAt_ne s k j2 _ hjk] at ho2
      exact hdisj j1 hj1 j2 hj2 o1' hmem1 o2' hmem2 hguard
    have hfree1 : ∀ x, InBlock (min o (buddyOf o k)) (k + 1) x →
        ¬ FreePt (setAt s k ((listAt s k).erase (buddyOf o k))) x := by
      intro x hx hpt
      rcases (freePt_setAt_iff s k _ hk x).1 hpt with ⟨o2, ho2, hx2⟩ | ⟨j, hj, hjk, o2, ho2, hx2⟩
      · have ho2' : o2 ≠ buddyOf o k ∧ o2 ∈ listAt s k := (hnd.mem_erase_iff).1 ho2
        rcases (hiffm x).1 hx with hxo | hxb
        · exact hfree x hxo ⟨k, hk, o2, ho2'.2, hx2⟩
        · exact blocksDisjoint_no_common o2 k (buddyOf o k) k x
            (hdisj k hk k hk o2 ho2'.2 (buddyOf o k) hbm (Or.inr ho2'.1)) hx2 hxb
      · rcases (hiffm x).1 hx with hxo | hxb
        · exact hfree x hxo ⟨j, hj, o2, ho2, hx2⟩
        · exact blocksDisjoint_no_common o2 j (buddyOf o k) k x
            (hdisj j hj k hk o2 ho2 (buddyOf o k) hbm (Or.inl hjk)) hx2 hxb
    obtain ⟨ihL, ihF, ihS, ihA, ihD⟩ :=
      freeBlock_spec n (k + 1) (min o (buddyOf o k))
        (setAt s k ((listAt s k).erase (buddyOf o k)))
        hsort1 halign1 hdisj1 halm hfree1
    refine ⟨by rw [ihL, length_setAt], ?_, ihS, ihA, ihD⟩
    intro x hx
    rcases ihF x hx with hpt | hblk
    · rcases (freePt_setAt_iff s k _ hk x).1 hpt with ⟨o2, ho2, hx2⟩ | ⟨j, hj, hjk, o2, ho2, hx2⟩
      · exact Or.inl ⟨k, hk, o2, hers.mem ho2, hx2⟩
      · exact Or.inl ⟨j, hj, o2, ho2, hx2⟩
    · rcases (hiffm x).1 hblk with hxo | hxb
      · exact Or.inr hxo
      · exact Or.inl ⟨k, hk, buddyOf o k, hbm, hxb⟩
  next hc =>
    by_cases hk : k < s.length
    · have honot : o ∉ listAt s k := by
        intro hmem
        have hpos : 0 < 2 ^ k := pow_pos (by norm_num) k
        exact hfree o ⟨Nat.le_refl o, by omega⟩ ⟨k, hk, o, hmem, ⟨Nat.le_refl o, by omega⟩⟩
      have hmemins : ∀ y, y ∈ insertSorted o (listAt s k) ↔ y = o ∨ y ∈ listAt s k :=
        fun y => mem_insertSorted o y (listAt s k)
      refine ⟨length_setAt s k _, ?_, ?_, ?_, ?_⟩
      · intro x hx
        rcases (freePt_setAt_iff s k _ hk x).1 hx with ⟨o2, ho2, hx2⟩ | ⟨j, hj, hjk, o2, ho2, hx2⟩
        · rcases (hmemins o2).1 ho2 with rfl | ho2'
          · exact Or.inr hx2
          · exact Or.inl ⟨k, hk, o2, ho2', hx2⟩
        · exact Or.inl ⟨j, hj, o2, ho2, hx2⟩
      · intro j hj
        rw [length_setAt] at hj
        by_cases hjk : j = k
        · rw [hjk, listAt_setAt_self s k _ hk]
          exact insertSorted_pairwise o (listAt s k) (hsort k hk) honot
        · rw [listAt_setAt_ne s k j _ hjk]
          exact hsort j hj
      · intro j hj o2 ho2
        rw [length_setAt] at hj
        by_cases hjk : j = k
        · rw [hjk, listAt_setAt_self s k _ hk] at ho2
          rcases (hmemins o2).1 ho2 with rfl | ho2'
          · exact hjk ▸ hal
          · exact hjk ▸ halign k hk o2 ho2'
        · rw [listAt_setAt_ne s k j _ hjk] at ho2
          exact halign j hj o2 ho2
      · intro j1 hj1 j2 hj2 o1' ho1 o2' ho2 hguard
        rw [length_setAt] at hj1 hj2
        have hres : ∀ j, j < s.length → ∀ y,
            y ∈ listAt (setAt s k (insertSorted o (listAt s k))) j →
            (j = k ∧ y = o) ∨ y ∈ listAt s j := by
          intro j hj y hy
          by_cases hjk : j = k
          · rw [hjk, listAt_setAt_self s k _ hk] at hy
            rcases (hmemins y).1 hy with rfl | hy'
            · exact Or.inl ⟨hjk, rfl⟩
            · exact Or.inr (hjk ▸ hy')
          · rw [listAt_setAt_ne s k j _ hjk] at hy
            exact Or.inr hy
        rcases hres j1 hj1 o1' ho1 with ⟨hj1k, rfl⟩ | hm1
        · rcases hres j2 hj2 o2' ho2 with ⟨hj2k, rfl⟩ | hm2
          · rcases hguard with hg | hg
            · exact absurd (hj1k.trans hj2k.symm) hg
            · exact absurd rfl hg
          · rw [hj1k]
            refine blocksDisjoint_of_no_common _ _ _ _ (fun x hx1 hx2 => ?_)
            exact hfree x hx1 ⟨j2, hj2, o2', hm2, hx2⟩
        · rcases hres j2 hj2 o2' ho2 with ⟨hj2k, rfl⟩ | hm2
          · rw [hj2k]
            refine blocksDisjoint_symm _ _ _ _
              (blocksDisjoint_of_no_common _ _ _ _ (fun x hx1 hx2 => ?_))
            exact hfree x hx1 ⟨j1, hj1, o1', hm1, hx2⟩
          · exact hdisj j1 hj1 j2 hj2 o1' hm1 o2' hm2 hguard
    · have hnil : listAt s k = [] := listAt_eq_nil_of_le s k (Nat.le_of_not_lt hk)
      have hset : setAt s k (insertSorted o (listAt s k)) = s :=
        List.set_eq_of_length_le (Nat.le_of_not_lt hk)
      rw [hset]
      exact ⟨rfl, fun x hx => Or.inl hx, hsort, halign, hdisj⟩
termination_by n - k
decreasing_by omega

/-! ### Invariant preservation along allocate/free traces -/

theorem le_two_pow_orderOf (m : Nat) : m ≤ 2 ^ orderOf m := by
  unfold orderOf
  split
  next h => simpa using h
  next h =>
    have ih := le_two_pow_orderOf ((m + 1) / 2)
    have hps : 2 ^ (orderOf ((m + 1) / 2) + 1) = 2 * 2 ^ orderOf ((m + 1) / 2) := by
      rw [pow_succ]
      ring
    omega
termination_by m
decreasing_by omega

theorem subInv_initial (n : Nat) : SubInv n (initialSub n) := by
  unfold SubInv LiveInv initialSub
  refine ⟨length_initBuddy n, ?_, ?_, ?_, ?_, ?_, ?_⟩
  · intro k hk
    rw [length_initBuddy] at hk
    rw [listAt_initBuddy n k hk]
    split
    · exact List.pairwise_singleton _ _
    · exact List.Pairwise.nil
  · intro k hk o ho
    rw [length_initBuddy] at hk
    rw [listAt_initBuddy n k hk] at ho
    split at ho
    · rcases List.mem_singleton.1 ho with rfl
      simp
    · exact absurd ho (List.not_mem_nil o)
  · intro k1 hk1 k2 hk2 o1 ho1 o2 ho2 hguard
    rw [length_initBuddy] at hk1 hk2
    rw [listAt_initBuddy n k1 hk1] at ho1
    rw [listAt_initBuddy n k2 hk2] at ho2
    split at ho1
    next he1 =>
      split at ho2
      next he2 =>
        rcases List.mem_singleton.1 ho1 with rfl
        rcases List.mem_singleton.1 ho2 with rfl
        rcases hguard with hg | hg
        · exact absurd (he1.trans he2.symm) hg
        · exact absurd rfl hg
      next => exact absurd ho2 (List.not_mem_nil o2)
    next => exact absurd ho1 (List.not_mem_nil o1)
  · intro h hm
    exact absurd hm (List.not_mem_nil h)
  · intro h hm
    exact absurd hm (List.not_mem_nil h)
  · exact List.Pairwise.nil

theorem handleRel_symm : Symmetric (fun h1 h2 : Nat × Nat × Nat =>
    BlocksDisjoint h1.1 (orderFor h1.2.1 h1.2.2) h2.1 (orderFor h2.2.1 h2.2.2)) :=
  fun _ _ hd => blocksDisjoint_symm _ _ _ _ hd

theorem stepOp_inv (n : Nat) (st : SubState) (op : MemOp) (hinv : SubInv n st) :
    SubInv n (stepOp n st op).1 := by
  unfold SubInv LiveInv at hinv
  obtain ⟨hlen, hsort, halign, hdisj, hliveAl, hliveFree, hlivePW⟩ := hinv
  cases op with
  | alloc size align =>
    unfold stepOp
    rcases hba : buddyAllocate n size align st.buddy with _ | ⟨o, b'⟩
    · simp only [hba]
      exact ⟨hlen, hsort, halign, hdisj, hliveAl, hliveFree, hlivePW⟩
    · simp only [hba]
      obtain ⟨ihA, ihB, ihC, ihS, ihAl, ihD⟩ :=
        allocBlock_spec n (orderFor size align) st.buddy hlen hsort halign hdisj o b' hba
      have halo : o % 2 ^ orderFor size align = 0 :=
        allocBlock_align n (orderFor size align) st.buddy halign o b' hba
      have hlenb : b'.length = st.buddy.length :=
        allocBlock_length n (orderFor size align) st.buddy o b' hba
      unfold SubInv LiveInv
      refine ⟨by rw [hlenb]; exact hlen, ihS, ihAl, ihD, ?_, ?_, ?_⟩
      · intro h hm
        rcases List.mem_cons.1 hm with rfl | hm'
        · exact halo
        · exact hliveAl h hm'
      · intro h hm x hx
        rcases List.mem_cons.1 hm with rfl | hm'
        · exact ihC x hx
        · intro hpt
          exact hliveFree h hm' x hx (ihA x hpt)
      · refine List.Pairwise.cons ?_ hlivePW
        intro h hm'
        refine blocksDisjoint_of_no_common _ _ _ _ (fun x hx1 hx2 => ?_)
        exact hliveFree h hm' x hx2 (ihB x hx1)
  | free o size align =>
    unfold stepOp
    by_cases hm : (o, size, align) ∈ st.live
    · simp only [if_pos hm]
      unfold buddyFree
      have halo : o % 2 ^ orderFor size align = 0 := hliveAl (o, size, align) hm
      have hfr : ∀ x, InBlock o (orderFor size align) x → ¬ FreePt st.buddy x :=
        fun x hx => hliveFree (o, size, align) hm x hx
      obtain ⟨ihL, ihF, ihS, ihA, ihD⟩ :=
        freeBlock_spec n (orderFor size align) o st.buddy hsort halign hdisj halo hfr
      have hirr : ∀ h : Nat × Nat × Nat,
          ¬ BlocksDisjoint h.1 (orderFor h.2.1 h.2.2) h.1 (orderFor h.2.1 h.2.2) := by
        intro h hd
        have hpos : 0 < 2 ^ orderFor h.2.1 h.2.2 := pow_pos (by norm_num) _
        unfold BlocksDisjoint at hd
        omega
      have hnd : st.live.Nodup :=
        hlivePW.imp (fun {a b} hd heq => by subst heq; exact hirr a hd)
      have hmem_er : ∀ h ∈ st.live.erase (o, size, align),
          h ≠ (o, size, align) ∧ h ∈ st.live :=
        fun h hh => (hnd.mem_erase_iff).1 hh
      have hdisfreed : ∀ h ∈ st.live.erase (o, size, align),
          BlocksDisjoint h.1 (orderFor h.2.1 h.2.2) o (orderFor size align) := by
        intro h hh
        obtain ⟨hne, hmem⟩ := hmem_er h hh
        exact hlivePW.forall handleRel_symm hmem hm hne
      unfold SubInv LiveInv
      refine ⟨by rw [ihL]; exact hlen, ihS, ihA, ihD, ?_, ?_, ?_⟩
      · intro h hh
        exact hliveAl h (hmem_er h hh).2
      · intro h hh x hx hpt
        rcases ihF x hpt with hpt' | hblk
        · exact hliveFree h (hmem_er h hh).2 x hx hpt'
        · exact blocksDisjoint_no_common _ _ _ _ x (hdisfreed h hh) hx hblk
      · exact hlivePW.sublist (List.erase_sublist _ _)
    · simp only [if_neg hm]
      exact ⟨hlen, hsort, halign, hdisj, hliveAl, hliveFree, hlivePW⟩

theorem runOps_inv (n : Nat) (st : SubState) (ops : List MemOp) (hinv : SubInv n st) :
    SubInv n (runOps n st ops).1 := by
  induction ops generalizing st with
  | nil => exact hinv
  | cons op rest ih =>
    exact ih (stepOp n st op).1 (stepOp_inv n st op hinv)

/-! ### Heap backend bookkeeping: reserve/release are inverses -/

theorem availAt_setAvail_self (b : Backend) (d hp v : Nat) (hd : d < b.length)
    (hh : hp < (b.getD d []).length) : availAt (setAvail b d hp v) d hp = v := by
  unfold availAt setAvail
  rw [getD_set_self b d _ [] hd, getD_set_self _ hp v 0 hh]

theorem setAvail_setAvail (b : Backend) (d hp v w : Nat) :
    setAvail (setAvail b d hp v) d hp w = setAvail b d hp w := by
  unfold setAvail
  by_cases hd : d < b.length
  · rw [getD_set_self b d _ [] hd, List.set_set, List.set_set]
  · have hle := Nat.le_of_not_lt hd
    have h1 : b.set d ((b.getD d []).set hp v) = b := List.set_eq_of_length_le hle
    rw [h1]

theorem setAvail_availAt_self (b : Backend) (d hp : Nat) :
    setAvail b d hp (availAt b d hp) = b := by
  unfold setAvail availAt
  rw [list_set_getD, list_set_getD]

theorem setAvail_oob_inner (b : Backend) (d hp v : Nat)
    (hh : (b.getD d []).length ≤ hp) : setAvail b d hp v = b := by
  unfold setAvail
  rw [List.set_eq_of_length_le hh, list_set_getD]

theorem release_reserve (b : Backend) (d hp sz : Nat) (b' : Backend)
    (h : reserveDev b d hp sz = some b') : releaseDev b' d hp sz = b := by
  unfold reserveDev at h
  split at h
  next hle =>
    simp only [Option.some.injEq] at h
    subst h
    by_cases hh : hp < (b.getD d []).length
    · have hd : d < b.length := by
        by_contra hdl
        rw [List.getD_eq_default _ [] (Nat.le_of_not_lt hdl)] at hh
        simp at hh
      unfold releaseDev
      rw [availAt_setAvail_self b d hp _ hd hh, Nat.sub_add_cancel hle,
        setAvail_setAvail, setAvail_availAt_self]
    · unfold releaseDev
      rw [setAvail_oob_inner b d hp _ (Nat.le_of_not_lt hh)]
      rw [setAvail_oob_inner b d hp _ (Nat.le_of_not_lt hh)]
  next => exact Option.noConfusion h

theorem releaseAll_append_one (hp sz : Nat) (done : List Nat) (d : Nat) (b : Backend) :
    releaseAll hp sz (done ++ [d]) b = releaseAll hp sz done (releaseDev b d hp sz) := by
  unfold releaseAll
  rw [List.foldr_append]
  rfl

/-! ### The per-device reservation loop unwinds on failure (claim C3 core) -/

theorem allocBaseLoop_error (hp sz : Nat) (devs : List Nat) :
    ∀ done b e b', allocBaseLoop hp sz devs done b = .error (e, b') →
      e = .outOfDeviceMemory ∧ b' = releaseAll hp sz done b := by
  induction devs with
  | nil =>
    intro done b e b' h
    exact Except.noConfusion h
  | cons d rest ih =>
    intro done b e b' h
    unfold allocBaseLoop at h
    split at h
    next b1 hres =>
      obtain ⟨he, hb⟩ := ih (done ++ [d]) b1 e b' h
      refine ⟨he, ?_⟩
      rw [hb, releaseAll_append_one, release_reserve b d hp sz b1 hres]
    next hres =>
      simp only [Except.error.injEq, Prod.mk.injEq] at h
      exact ⟨h.1.symm, h.2.symm⟩

theorem allocBaseLoop_ok (hp sz : Nat) (devs : List Nat) :
    ∀ done b b'', allocBaseLoop hp sz devs done b = .ok b'' →
      releaseAll hp sz (done ++ devs) b'' = releaseAll hp sz done b := by
  induction devs with
  | nil =>
    intro done b b'' h
    unfold allocBaseLoop at h
    simp only [Except.ok.injEq] at h
    subst h
    rw [List.append_nil]
  | cons d rest ih =>
    intro done b b'' h
    unfold allocBaseLoop at h
    split at h
    next b1 hres =>
      have hrec := ih (done ++ [d]) b1 b'' h
      rw [List.append_cons, hrec, releaseAll_append_one,
        release_reserve b d hp sz b1 hres]
    next hres => exact Except.noConfusion h

theorem allocBase_error_unwinds (cfg : MgrConfig) (hp sz : Nat) (b : Backend)
    (e : AllocErr) (b' : Backend)
    (h : InternalMemMgr.AllocBaseGpuMem cfg hp sz b = .error (e, b')) :
    e = .outOfDeviceMemory ∧ b' = b :=
  allocBaseLoop_error hp sz (List.range cfg.numDevices) [] b e b' h

theorem allocBase_ok_releaseAll (cfg : MgrConfig) (hp sz : Nat) (b b'' : Backend)
    (h : InternalMemMgr.AllocBaseGpuMem cfg hp sz b = .ok b'') :
    releaseAll hp sz (List.range cfg.numDevices) b'' = b := by
  have := allocBaseLoop_ok hp sz (List.range cfg.numDevices) [] b b'' h
  simpa using this

/-! ### Heap preference fallback preserves the backend on failure -/

theorem tryHeaps_error (cfg : MgrConfig) (sz : Nat) (heaps : List Nat) :
    ∀ b b', tryHeaps cfg sz heaps b = .error b' → b' = b := by
  induction heaps with
  | nil =>
    intro b b' h
    unfold tryHeaps at h
    simp only [Except.error.injEq] at h
    exact h.symm
  | cons hp rest ih =>
    intro b b' h
    unfold tryHeaps at h
    split at h
    next b1 hok => exact Except.noConfusion h
    next e1 b1 herr =>
      have hb1 : b1 = b := (allocBase_error_unwinds cfg hp sz b e1 b1 herr).2
      exact (ih b1 b' h).trans hb1

theorem tryHeaps_ok (cfg : MgrConfig) (sz : Nat) (heaps : List Nat) :
    ∀ b hp b', tryHeaps cfg sz heaps b = .ok (hp, b') →
      releaseAll hp sz (List.range cfg.numDevices) b' = b := by
  induction heaps with
  | nil =>
    intro b hp b' h
    exact Except.noConfusion h
  | cons hp0 rest ih =>
    intro b hp b' h
    unfold tryHeaps at h
    split at h
    next b1 hok =>
      simp only [Except.ok.injEq, Prod.mk.injEq] at h
      obtain ⟨rfl, rfl⟩ := h
      exact allocBase_ok_releaseAll cfg hp0 sz b b1 hok
    next e1 b1 herr =>
      have hb1 : b1 = b := (allocBase_error_unwinds cfg hp0 sz b e1 b1 herr).2
      exact (ih b1 hp b' h).trans hb1

/-! ### Failed allocations leave the manager state untouched (claim C2 core) -/

theorem allocGpuMemCore_error_preserves (cfg : MgrConfig) (info : InternalMemCreateInfo)
    (st : MgrState) (e : AllocErr) (st' : MgrState)
    (h : InternalMemMgr.AllocGpuMemCore cfg info st = (.err e, st')) : st' = st := by
  unfold InternalMemMgr.AllocGpuMemCore at h
  split at h
  all_goals simp only [] at h
  · -- noSuballocation request
    split at h
    next b' herr =>
      simp only [Prod.mk.injEq] at h
      have hb : b' = st.backend := tryHeaps_error cfg info.size _ st.backend b' herr
      rw [← h.2, hb]
    next hok =>
      simp only [Prod.mk.injEq] at h
      exact AllocResult.noConfusion h.1
  · -- sub-allocating request
    split at h
    next hscan =>
      simp only [Prod.mk.injEq] at h
      exact AllocResult.noConfusion h.1
    next hscan =>
      split at h
      next b' herr =>
        simp only [Prod.mk.injEq] at h
        have hb : b' = st.backend := tryHeaps_error cfg _ _ st.backend b' herr
        rw [← h.2, hb]
      next hp b' hok =>
        split at h
        next hballoc =>
          simp only [Prod.mk.injEq] at h
          have hb : releaseAll hp (2 ^ max (orderFor info.size info.alignment) cfg.minPoolOrder)
              (List.range cfg.numDevices) b' = st.backend :=
            tryHeaps_ok cfg _ _ st.backend hp b' hok
          rw [← h.2, hb]
        next hballoc =>
          simp only [Prod.mk.injEq] at h
          exact AllocResult.noConfusion h.1

/-! ### Registry lookup/update lemmas -/

theorem find?_map_replace (props : MemoryPoolProperties) (l : List BaseAlloc)
    (ps : List (MemoryPoolProperties × List BaseAlloc)) :
    (ps.map (fun e => if e.1 = props then (props, l) else e)).find?
        (fun e => decide (e.1 = props)) =
      if ps.any (fun e => decide (e.1 = props)) then some (props, l) else none := by
  induction ps with
  | nil => rfl
  | cons e t ih =>
    by_cases he : e.1 = props
    · have hmap : (if e.1 = props then (props, l) else e) = (props, l) := if_pos he
      rw [List.map_cons, hmap, List.find?_cons_of_pos _ (by simp), List.any_cons,
        decide_eq_true he]
      simp
    · have hmap : (if e.1 = props then (props, l) else e) = e := if_neg he
      rw [List.map_cons, hmap, List.find?_cons_of_neg _ (by simp [he]), ih]
      have hdec : decide (e.1 = props) = false := by simp [he]
      rw [List.any_cons, hdec, Bool.false_or]

theorem find?_map_replace_ne (props props' : MemoryPoolProperties) (l : List BaseAlloc)
    (ps : List (MemoryPoolProperties × List BaseAlloc)) (hne : props' ≠ props) :
    (ps.map (fun e => if e.1 = props then (props, l) else e)).find?
        (fun e => decide (e.1 = props')) =
      ps.find? (fun e => decide (e.1 = props')) := by
  induction ps with
  | nil => rfl
  | cons e t ih =>
    by_cases he : e.1 = props
    · have hne1 : ¬ e.1 = props' := by rw [he]; exact fun hc => hne hc.symm
      have hne2 : ¬ ((props, l) : MemoryPoolProperties × List BaseAlloc).1 = props' :=
        fun hc => hne hc.symm
      have hmap : (if e.1 = props then (props, l) else e) = (props, l) := if_pos he
      rw [List.map_cons, hmap, List.find?_cons_of_neg _ (by simp [hne2]),
        List.find?_cons_of_neg _ (by simp [hne1]), ih]
    · have hmap : (if e.1 = props then (props, l) else e) = e := if_neg he
      by_cases he' : e.1 = props'
      · rw [List.map_cons, hmap, List.find?_cons_of_pos _ (by simp [he']),
          List.find?_cons_of_pos _ (by simp [he'])]
      · rw [List.map_cons, hmap, List.find?_cons_of_neg _ (by simp [he']),
          List.find?_cons_of_neg _ (by simp [he']), ih]

theorem lookupPool_setPool_self (props : MemoryPoolProperties) (l : List BaseAlloc)
    (ps : List (MemoryPoolProperties × List BaseAlloc)) :
    lookupPool props (setPool props l ps) = l := by
  unfold lookupPool setPool
  by_cases hany : ps.any (fun e => decide (e.1 = props))
  · rw [if_pos hany, find?_map_replace, if_pos hany]
  · rw [if_neg hany, List.find?_append]
    have hnone : ps.find? (fun e => decide (e.1 = props)) = none := by
      rw [List.find?_eq_none]
      intro x hx hpx
      exact hany (List.any_eq_true.2 ⟨x, hx, hpx⟩)
    rw [hnone]
    simp

theorem lookupPool_setPool_ne (props props' : MemoryPoolProperties) (l : List BaseAlloc)
    (ps : List (MemoryPoolProperties × List BaseAlloc)) (hne : props' ≠ props) :
    lookupPool props' (setPool props l ps) = lookupPool props' ps := by
  unfold lookupPool setPool
  by_cases hany : ps.any (fun e => decide (e.1 = props))
  · rw [if_pos hany, find?_map_replace_ne props props' l ps hne]
  · rw [if_neg hany, List.find?_append]
    have hsing : List.find? (fun e => decide (e.1 = props')) [(props, l)] = none := by
      have : ¬ (props : MemoryPoolProperties) = props' := fun hc => hne hc.symm
      simp [this]
    rw [hsing, Option.or_none]

/-! ### Effect of releasing a whole Base Allocation on the backend -/

theorem length_setAvail (b : Backend) (d hp v : Nat) :
    (setAvail b d hp v).length = b.length := by
  unfold setAvail
  simp

theorem row_length_setAvail (b : Backend) (d hp v d' : Nat) :
    ((setAvail b d hp v).getD d' []).length = (b.getD d' []).length := by
  unfold setAvail
  by_cases hd : d < b.length
  · by_cases hdd : d' = d
    · subst hdd
      rw [getD_set_self b d' _ [] hd]
      simp
    · rw [getD_set_ne b d d' _ [] (fun hc => hdd hc.symm)]
  · rw [List.set_eq_of_length_le (Nat.le_of_not_lt hd)]

theorem length_releaseAll (hp sz : Nat) (devs : List Nat) (b : Backend) :
    (releaseAll hp sz devs b).length = b.length := by
  induction devs with
  | nil => rfl
  | cons d rest ih =>
    show (releaseDev (releaseAll hp sz rest b) d hp sz).length = b.length
    unfold releaseDev
    rw [length_setAvail, ih]

theorem row_length_releaseAll (hp sz : Nat) (devs : List Nat) (b : Backend) (d' : Nat) :
    ((releaseAll hp sz devs b).getD d' []).length = (b.getD d' []).length := by
  induction devs with
  | nil => rfl
  | cons d rest ih =>
    show (((releaseDev (releaseAll hp sz rest b) d hp sz)).getD d' []).length =
      (b.getD d' []).length
    unfold releaseDev
    rw [row_length_setAvail, ih]

theorem availAt_releaseDev_ne (b : Backend) (d d' hp sz : Nat) (hne : d' ≠ d) :
    availAt (releaseDev b d' hp sz) d hp = availAt b d hp := by
  unfold releaseDev availAt setAvail
  rw [getD_set_ne b d' d _ [] hne]

theorem availAt_releaseDev_self (b : Backend) (d hp sz : Nat) (hd : d < b.length)
    (hh : hp < (b.getD d []).length) :
    availAt (releaseDev b d hp sz) d hp = availAt b d hp + sz := by
  unfold releaseDev
  exact availAt_setAvail_self b d hp _ hd hh

theorem availAt_releaseAll (hp sz : Nat) (devs : List Nat) (b : Backend) (d : Nat)
    (hd : d < b.length) (hh : hp < (b.getD d []).length) (hnd : devs.Nodup) :
    availAt (releaseAll hp sz devs b) d hp =
      availAt b d hp + (if d ∈ devs then sz else 0) := by
  induction devs with
  | nil => simp [releaseAll]
  | cons d0 rest ih =>
    have hnd' : rest.Nodup := (List.nodup_cons.1 hnd).2
    have hd0 : d0 ∉ rest := (List.nodup_cons.1 hnd).1
    show availAt (releaseDev (releaseAll hp sz rest b) d0 hp sz) d hp = _
    by_cases hdd : d = d0
    · subst hdd
      have hdm : d ∉ rest := hd0
      rw [availAt_releaseDev_self _ _ _ _
        (by rw [length_releaseAll]; exact hd)
        (by rw [row_length_releaseAll]; exact hh)]
      rw [ih hnd']
      simp [hdm]
    · rw [availAt_releaseDev_ne _ _ _ _ _ (Ne.symm hdd)]
      rw [ih hnd']
      simp [hdd]

/-! ## Claim theorems -/

/-- C2: every `AllocGpuMem` call that returns an error leaves the Manager's
registry state (pool-list map, Base Allocation lists, and the heap backend
bookkeeping) exactly as it was before the call: no partially-created Base
Allocation remains attached. -/
theorem alloc_gpu_mem_error_preserves_state (cfg : MgrConfig)
    (info : InternalMemCreateInfo) (st : MgrState) (e : AllocErr) (st' : MgrState)
    (h : InternalMemMgr.AllocGpuMem cfg info st = (.err e, st')) : st' = st := by
  unfold InternalMemMgr.AllocGpuMem at h
  split at h
  next p hpi =>
    split at h
    next hne =>
      simp only [Prod.mk.injEq] at h
      exact h.2.symm
    next hne => exact allocGpuMemCore_error_preserves cfg info st e st' h
  next hpi => exact allocGpuMemCore_error_preserves cfg info st e st' h

/-- Witness for C2: a dedicated (`noSuballocation`) request of 5 units
against a single-device backend with only 3 units of capacity fails with
`OutOfDeviceMemory` and leaves the state unchanged. -/
theorem alloc_gpu_mem_error_preserves_state_witness :
    InternalMemMgr.AllocGpuMem ⟨1, 1, 0⟩
        ⟨5, 1, 0, [0], ⟨false, false, true⟩, none⟩ ⟨[[3]], []⟩ =
      (.err .outOfDeviceMemory, ⟨[[3]], []⟩) ∧
    (⟨[[3]], []⟩ : MgrState) = ⟨[[3]], []⟩ :=
  ⟨rfl,
   alloc_gpu_mem_error_preserves_state ⟨1, 1, 0⟩
     ⟨5, 1, 0, [0], ⟨false, false, true⟩, none⟩ ⟨[[3]], []⟩
     .outOfDeviceMemory ⟨[[3]], []⟩ rfl⟩

/-- C3: whenever a per-device reservation fails during Base Allocation
creation in a device group, the operation reports `OutOfDeviceMemory` and
every per-device reservation that had already succeeded during the same
attempt is released before returning, leaving the backend exactly as it
was. -/
theorem alloc_base_partial_failure_unwinds (cfg : MgrConfig) (hp sz : Nat)
    (b : Backend) (e : AllocErr) (b' : Backend)
    (h : InternalMemMgr.AllocBaseGpuMem cfg hp sz b = .error (e, b')) :
    e = .outOfDeviceMemory ∧ b' = b :=
  allocBaseLoop_error hp sz (List.range cfg.numDevices) [] b e b' h

/-- Witness for C3: two devices with capacities 5 and 3; a 4-unit request
succeeds on device 0, fails on device 1, and the device-0 reservation is
released again. -/
theorem alloc_base_partial_failure_unwinds_witness :
    InternalMemMgr.AllocBaseGpuMem ⟨2, 1, 0⟩ 0 4 [[5], [3]] =
      .error (.outOfDeviceMemory, [[5], [3]]) ∧
    AllocErr.outOfDeviceMemory = .outOfDeviceMemory ∧
    ([[5], [3]] : Backend) = [[5], [3]] :=
  ⟨rfl, alloc_base_partial_failure_unwinds ⟨2, 1, 0⟩ 0 4 [[5], [3]]
    .outOfDeviceMemory [[5], [3]] rfl⟩

/-- C5: an `AllocGpuMem` call whose create info carries a caller-supplied
precomputed pool information that no longer matches the requested
configuration fails with `InvalidPoolSignature` and does not proceed with
the stale pool. -/
theorem alloc_gpu_mem_stale_pool_info (cfg : MgrConfig)
    (info : InternalMemCreateInfo) (st : MgrState) (p : MemoryPoolProperties)
    (hp : info.pPoolInfo = some p) (hne : p ≠ calcPoolProperties info) :
    InternalMemMgr.AllocGpuMem cfg info st = (.err .invalidPoolSignature, st) := by
  unfold InternalMemMgr.AllocGpuMem
  rw [hp]
  exact if_pos hne

/-- C4: for every valid (registered, not yet freed) handle, `FreeGpuMem`
never fails -- it returns a plain state and no error result -- and it
either returns the handle's range to the owning Base Allocation's Buddy
Allocator (`noSuballocation` unset) or releases the whole Base Allocation
back to the heap backend immediately, removing it from the registry
(`noSuballocation` set). -/
theorem free_gpu_mem_infallible (cfg : MgrConfig) (hmem : SubAllocHandle)
    (st : MgrState) (ba : BaseAlloc)
    (hba : (lookupPool hmem.props st.pools).get? hmem.baseIdx = some ba) :
    (ba.noSub = false →
      (InternalMemMgr.FreeGpuMem cfg hmem st).backend = st.backend ∧
      (lookupPool hmem.props (InternalMemMgr.FreeGpuMem cfg hmem st).pools).get?
          hmem.baseIdx =
        some { ba with
          buddy := buddyFree ba.order hmem.offset hmem.size hmem.alignment ba.buddy }) ∧
    (ba.noSub = true →
      (∀ d, d < cfg.numDevices → d < st.backend.length →
          ba.heap < (st.backend.getD d []).length →
          availAt (InternalMemMgr.FreeGpuMem cfg hmem st).backend d ba.heap =
            availAt st.backend d ba.heap + ba.size) ∧
      lookupPool hmem.props (InternalMemMgr.FreeGpuMem cfg hmem st).pools =
        (lookupPool hmem.props st.pools).eraseIdx hmem.baseIdx) := by
  have hlt : hmem.baseIdx < (lookupPool hmem.props st.pools).length := by
    rw [List.get?_eq_getElem?] at hba
    obtain ⟨hl, -⟩ := List.getElem?_eq_some_iff.1 hba
    exact hl
  have heq : InternalMemMgr.FreeGpuMem cfg hmem st =
      (if ba.noSub then
        (⟨releaseAll ba.heap ba.size (List.range cfg.numDevices) st.backend,
          setPool hmem.props ((lookupPool hmem.props st.pools).eraseIdx hmem.baseIdx)
            st.pools⟩ : MgrState)
      else
        (⟨st.backend,
          setPool hmem.props
            ((lookupPool hmem.props st.pools).set hmem.baseIdx
              { ba with
                buddy := buddyFree ba.order hmem.offset hmem.size hmem.alignment ba.buddy })
            st.pools⟩ : MgrState)) := by
    unfold InternalMemMgr.FreeGpuMem
    simp only [hba]
  rw [heq]
  cases hnosub : ba.noSub with
  | false =>
    rw [if_neg (by simp [hnosub])]
    constructor
    · intro _
      refine ⟨rfl, ?_⟩
      rw [lookupPool_setPool_self, List.get?_eq_getElem?, List.getElem?_set_self hlt]
    · intro htrue
      exact absurd htrue (by simp [hnosub])
  | true =>
    rw [if_pos (by simp [hnosub])]
    constructor
    · intro hfalse
      exact absurd hfalse (by simp [hnosub])
    · intro _
      constructor
      · intro d hdn hdb hhb
        show availAt (releaseAll ba.heap ba.size (List.range cfg.numDevices) st.backend)
            d ba.heap = _
        rw [availAt_releaseAll ba.heap ba.size (List.range cfg.numDevices) st.backend d
          hdb hhb (List.nodup_range cfg.numDevices)]
        rw [if_pos (List.mem_range.2 hdn)]
      · exact lookupPool_setPool_self _ _ _

/-- Witness for C4: freeing the fixture's dedicated handle returns its 5
units to heap 0 of the single device and removes the Base Allocation from
the registry. -/
theorem free_gpu_mem_infallible_witness :
    (lookupPool hmemW.props stW.pools).get? hmemW.baseIdx = some baW ∧
    ((baW.noSub = false →
      (InternalMemMgr.FreeGpuMem cfgW hmemW stW).backend = stW.backend ∧
      (lookupPool hmemW.props (InternalMemMgr.FreeGpuMem cfgW hmemW stW).pools).get?
          hmemW.baseIdx =
        some { baW with
          buddy := buddyFree baW.order hmemW.offset hmemW.size hmemW.alignment baW.buddy }) ∧
    (baW.noSub = true →
      (∀ d, d < cfgW.numDevices → d < stW.backend.length →
          baW.heap < (stW.backend.getD d []).length →
          availAt (InternalMemMgr.FreeGpuMem cfgW hmemW stW).backend d baW.heap =
            availAt stW.backend d baW.heap + baW.size) ∧
      lookupPool hmemW.props (InternalMemMgr.FreeGpuMem cfgW hmemW stW).pools =
        (lookupPool hmemW.props stW.pools).eraseIdx hmemW.baseIdx)) :=
  ⟨rfl, free_gpu_mem_infallible cfgW hmemW stW baW rfl⟩

/-- Witness for C5: a request whose cached pool information names a
different VA range than the request itself. -/
theorem alloc_gpu_mem_stale_pool_info_witness :
    (⟨4, 1, 0, [0], ⟨false, false, false⟩,
        some ⟨⟨false, false, false⟩, 7, [0]⟩⟩ : InternalMemCreateInfo).pPoolInfo =
      some ⟨⟨false, false, false⟩, 7, [0]⟩ ∧
    (⟨⟨false, false, false⟩, 7, [0]⟩ : MemoryPoolProperties) ≠
      calcPoolProperties ⟨4, 1, 0, [0], ⟨false, false, false⟩,
        some ⟨⟨false, false, false⟩, 7, [0]⟩⟩ ∧
    InternalMemMgr.AllocGpuMem ⟨1, 1, 0⟩
        ⟨4, 1, 0, [0], ⟨false, false, false⟩,
          some ⟨⟨false, false, false⟩, 7, [0]⟩⟩ ⟨[[8]], []⟩ =
      (.err .invalidPoolSignature, ⟨[[8]], []⟩) :=
  ⟨rfl, by decide,
   alloc_gpu_mem_stale_pool_info ⟨1, 1, 0⟩
     ⟨4, 1, 0, [0], ⟨false, false, false⟩, some ⟨⟨false, false, false⟩, 7, [0]⟩⟩
     ⟨[[8]], []⟩ ⟨⟨false, false, false⟩, 7, [0]⟩ rfl (by decide)⟩

/-- C1: for every sequence of `AllocGpuMem` and `FreeGpuMem` calls with the
`noSuballocation` flag unset (modelled as the call trace routed to one Base
Allocation), any two simultaneously live sub-allocation handles granted
from the same Base Allocation have disjoint byte ranges: their
`[offset, offset + size)` intervals never overlap. -/
theorem suballoc_handles_no_overlap (n : Nat) (ops : List MemOp) :
    ((runOps n (initialSub n) ops).1.live).Pairwise
      (fun h1 h2 => ¬ RangesOverlap h1.1 h1.2.1 h2.1 h2.2.1) := by
  have hinv := runOps_inv n (initialSub n) ops (subInv_initial n)
  unfold SubInv LiveInv at hinv
  obtain ⟨-, -, -, -, -, -, hPW⟩ := hinv
  refine hPW.imp ?_
  intro h1 h2 hd hov
  have hs1 : h1.2.1 ≤ 2 ^ orderFor h1.2.1 h1.2.2 :=
    le_trans (Nat.le_max_left _ _) (le_two_pow_orderOf _)
  have hs2 : h2.2.1 ≤ 2 ^ orderFor h2.2.1 h2.2.2 :=
    le_trans (Nat.le_max_left _ _) (le_two_pow_orderOf _)
  unfold BlocksDisjoint at hd
  unfold RangesOverlap at hov
  omega

/-- C8: a default-constructed `InternalMemory` handle is fully zeroed at the
public interface: `Offset()`, `Size()` and the alignment are 0, the GPU
virtual address is 0 for every device index below `MaxPalDevices`, and the
memory-pool reference (PAL memory pointers, persistently mapped addresses
and the buddy-allocator pointer) is null/zero. -/
theorem internal_memory_default_zeroed :
    InternalMemory.init.Offset = 0 ∧
    InternalMemory.init.Size = 0 ∧
    InternalMemory.init.m_alignment = 0 ∧
    (∀ idx : Fin MaxPalDevices, InternalMemory.init.GpuVirtAddr idx.val = 0) ∧
    InternalMemory.init.m_memoryPool.pBuddyAllocator = 0 ∧
    (∀ idx : Fin MaxPalDevices, InternalMemory.init.PalMemory idx.val = 0) ∧
    (∀ idx : Fin MaxPalDevices,
      InternalMemory.init.m_memoryPool.groupMemory.m_pPersistentCpuAddr.getD idx.val 0 = 0) := by
  decide

/-- C9: `GenerateSettingHash` ignores the CCC-controlled fields and
preserves the settings frame: two settings structures that differ only in
`appGpuID` and/or `vulkanTexFilterQuality` hash identically, and after the
call every field of the settings structure holds the value it held
before. -/
theorem generate_setting_hash_ccc_noninterference
    (H : RuntimeSettings → Nat) (s1 s2 : RuntimeSettings)
    (hts : s1.enableTurboSync = s2.enableTurboSync)
    (hfe : s1.forceAppProfileEnable = s2.forceAppProfileEnable)
    (hfv : s1.forceAppProfileValue = s2.forceAppProfileValue)
    (hpa : s1.preciseAnisoMode = s2.preciseAnisoMode)
    (hrf : s1.remainingFields = s2.remainingFields) :
    (VulkanSettingsLoader.GenerateSettingHash H s1).2 =
      (VulkanSettingsLoader.GenerateSettingHash H s2).2 ∧
    (VulkanSettingsLoader.GenerateSettingHash H s1).1 = s1 ∧
    (VulkanSettingsLoader.GenerateSettingHash H s2).1 = s2 := by
  obtain ⟨a1, t1, e1, f1, v1, p1, r1⟩ := s1
  obtain ⟨a2, t2, e2, f2, v2, p2, r2⟩ := s2
  refine ⟨?_, rfl, rfl⟩
  show H ⟨0, .disabled, e1, f1, v1, p1, r1⟩ = H ⟨0, .disabled, e2, f2, v2, p2, r2⟩
  have hts' : e1 = e2 := hts
  have hfe' : f1 = f2 := hfe
  have hfv' : v1 = v2 := hfv
  have hpa' : p1 = p2 := hpa
  have hrf' : r1 = r2 := hrf
  rw [hts', hfe', hfv', hpa', hrf']

/-- Witness for C9: two concrete settings structures differing only in
`appGpuID` and `vulkanTexFilterQuality`, with a hash that does read
`appGpuID`. -/
theorem generate_setting_hash_ccc_noninterference_witness :
    (⟨5, .enabled, true, false, 0, 1, 42⟩ : RuntimeSettings).enableTurboSync =
      (⟨9, .aggressive, true, false, 0, 1, 42⟩ : RuntimeSettings).enableTurboSync ∧
    (⟨5, .enabled, true, false, 0, 1, 42⟩ : RuntimeSettings).forceAppProfileEnable =
      (⟨9, .aggressive, true, false, 0, 1, 42⟩ : RuntimeSettings).forceAppProfileEnable ∧
    (⟨5, .enabled, true, false, 0, 1, 42⟩ : RuntimeSettings).forceAppProfileValue =
      (⟨9, .aggressive, true, false, 0, 1, 42⟩ : RuntimeSettings).forceAppProfileValue ∧
    (⟨5, .enabled, true, false, 0, 1, 42⟩ : RuntimeSettings).preciseAnisoMode =
      (⟨9, .aggressive, true, false, 0, 1, 42⟩ : RuntimeSettings).preciseAnisoMode ∧
    (⟨5, .enabled, true, false, 0, 1, 42⟩ : RuntimeSettings).remainingFields =
      (⟨9, .aggressive, true, false, 0, 1, 42⟩ : RuntimeSettings).remainingFields ∧
    ((VulkanSettingsLoader.GenerateSettingHash hashW ⟨5, .enabled, true, false, 0, 1, 42⟩).2 =
      (VulkanSettingsLoader.GenerateSettingHash hashW ⟨9, .aggressive, true, false, 0, 1, 42⟩).2 ∧
    (VulkanSettingsLoader.GenerateSettingHash hashW ⟨5, .enabled, true, false, 0, 1, 42⟩).1 =
      ⟨5, .enabled, true, false, 0, 1, 42⟩ ∧
    (VulkanSettingsLoader.GenerateSettingHash hashW ⟨9, .aggressive, true, false, 0, 1, 42⟩).1 =
      ⟨9, .aggressive, true, false, 0, 1, 42⟩) :=
  ⟨rfl, rfl, rfl, rfl, rfl,
   generate_setting_hash_ccc_noninterference hashW
     ⟨5, .enabled, true, false, 0, 1, 42⟩ ⟨9, .aggressive, true, false, 0, 1, 42⟩
     rfl rfl rfl rfl rfl⟩

/-- C10: `ProcessSettings` terminates with recursion depth at most one: a
fuel of 2 always suffices; the profile-forcing pass is idempotent (so the
recursive call cannot change the profile again when the settings reads are
stable); and the profile changes only when `forceAppProfileEnable` is set
and `forceAppProfileValue` differs from the incoming profile. -/
theorem process_settings_depth_at_most_one (env : VulkanSettingsLoader.SettingsEnv)
    (p : Nat) :
    (VulkanSettingsLoader.ProcessSettings env 2 p).isSome = true ∧
    VulkanSettingsLoader.processPass env (VulkanSettingsLoader.processPass env p) =
      VulkanSettingsLoader.processPass env p ∧
    (VulkanSettingsLoader.processPass env p ≠ p →
      env.forceAppProfileEnable = true ∧ env.forceAppProfileValue ≠ p) := by
  refine ⟨?_, ?_, ?_⟩
  · unfold VulkanSettingsLoader.ProcessSettings
    by_cases ho : env.overrideSucceeds = false
    · simp [ho]
    · by_cases he : env.forceAppProfileEnable
      · by_cases hv : env.forceAppProfileValue = p
        · simp [VulkanSettingsLoader.processPass, ho, he, hv]
        · simp [VulkanSettingsLoader.ProcessSettings,
            VulkanSettingsLoader.processPass, ho, he, hv]
      · simp [VulkanSettingsLoader.processPass, ho, he]
  · unfold VulkanSettingsLoader.processPass
    by_cases he : env.forceAppProfileEnable <;> simp [he]
  · intro hne
    unfold VulkanSettingsLoader.processPass at hne
    by_cases he : env.forceAppProfileEnable
    · rw [if_pos he] at hne
      exact ⟨by simpa using he, hne⟩
    · rw [if_neg he] at hne
      exact absurd rfl hne

/-- Witness for C10: a concrete environment that forces profile 7 starting
from profile 3. -/
theorem process_settings_depth_at_most_one_witness :
    (VulkanSettingsLoader.ProcessSettings ⟨true, true, 7⟩ 2 3).isSome = true ∧
    VulkanSettingsLoader.processPass ⟨true, true, 7⟩
        (VulkanSettingsLoader.processPass ⟨true, true, 7⟩ 3) =
      VulkanSettingsLoader.processPass ⟨true, true, 7⟩ 3 ∧
    (VulkanSettingsLoader.processPass ⟨true, true, 7⟩ 3 ≠ 3 →
      (⟨true, true, 7⟩ : VulkanSettingsLoader.SettingsEnv).forceAppProfileEnable = true ∧
      (⟨true, true, 7⟩ : VulkanSettingsLoader.SettingsEnv).forceAppProfileValue ≠ 3) :=
  process_settings_depth_at_most_one ⟨true, true, 7⟩ 3

/-- C6: Buddy Allocator round-trip.  For every well-formed Buddy Allocator
state `s` and every allocation request that succeeds in `s` with some
offset, immediately freeing that offset/size yields a state from which any
subsequent sequence of allocation calls returns exactly the same results as
it would from `s`. -/
theorem buddy_alloc_free_roundtrip (n size align o : Nat) (s s' : FreeLists)
    (hwf : BuddyWF n s) (h : buddyAllocate n size align s = some (o, s'))
    (calls : List (Nat × Nat)) :
    runAllocs n calls (buddyFree n o size align s') = runAllocs n calls s := by
  obtain ⟨hlen, hsort, halign, hmerge⟩ := hwf
  have hfs : buddyFree n o size align s' = s :=
    allocBlock_roundtrip n (orderFor size align) s hlen hsort halign hmerge o s' h
  rw [hfs]

/-- Witness for C6: a concrete 4-unit allocator, a 1-unit allocation at
offset 0, and a concrete follow-up call sequence. -/
theorem buddy_alloc_free_roundtrip_witness :
    BuddyWF 2 (initBuddy 2) ∧
    buddyAllocate 2 1 1 (initBuddy 2) = some (0, [[1], [2], []]) ∧
    runAllocs 2 [(1, 1), (2, 2)] (buddyFree 2 0 1 1 [[1], [2], []]) =
      runAllocs 2 [(1, 1), (2, 2)] (initBuddy 2) :=
  ⟨by decide,
   by simp [buddyAllocate, orderFor, orderOf, allocBlock, initBuddy, listAt, setAt,
        insertSorted]
      decide,
   buddy_alloc_free_roundtrip 2 1 1 0 (initBuddy 2) [[1], [2], []]
     (by decide)
     (by simp [buddyAllocate, orderFor, orderOf, allocBlock, initBuddy, listAt, setAt,
          insertSorted]
         decide)
     [(1, 1), (2, 2)]⟩

/-- C7: Buddy Allocator determinism.  Two runs fed the identical sequence of
allocate and free calls (same sizes, alignments and order) from equal
starting states produce identical placements for every call. -/
theorem buddy_deterministic (n : Nat) (s1 s2 : SubState)
    (ops1 ops2 : List MemOp) (hs : s1 = s2) (hops : ops1 = ops2) :
    (runOps n s1 ops1).2 = (runOps n s2 ops2).2 := by
  rw [hs, hops]

/-- Witness for C7: two identical concrete runs. -/
theorem buddy_deterministic_witness :
    initialSub 2 = initialSub 2 ∧
    ([MemOp.alloc 1 1, MemOp.free 0 1 1, MemOp.alloc 4 1] =
      [MemOp.alloc 1 1, MemOp.free 0 1 1, MemOp.alloc 4 1]) ∧
    (runOps 2 (initialSub 2) [MemOp.alloc 1 1, MemOp.free 0 1 1, MemOp.alloc 4 1]).2 =
      (runOps 2 (initialSub 2) [MemOp.alloc 1 1, MemOp.free 0 1 1, MemOp.alloc 4 1]).2 :=
  ⟨rfl, rfl,
   buddy_deterministic 2 (initialSub 2) (initialSub 2)
     [MemOp.alloc 1 1, MemOp.free 0 1 1, MemOp.alloc 4 1]
     [MemOp.alloc 1 1, MemOp.free 0 1 1, MemOp.alloc 4 1] rfl rfl⟩

end Xgl
